import Mathlib

/-!
Verification of the crawl–discover–verify pipeline of the pdf_web_scraper
repository against its natural-language specification.

The Python sources (`pdf_crawler.py`, `pdf_scraper.py`, `gui_scraper.py`) are
shallowly embedded below.  Python strings are modelled as `List Char`; the
relevant parts of CPython 3.11's `urllib.parse` (`urlsplit`, `urlunsplit`,
`urlparse`, `geturl`, `parse_qs`) are embedded faithfully, since the
repository's URL handling inherits their semantics.  The embedding of
`urlsplit` is total; CPython raises `ValueError` only for netlocs with
unbalanced square brackets or certain non-ASCII netlocs, and `pyUrlsplitOk`
characterises a sufficient raise-free domain used as a hypothesis where a
theorem's truth could otherwise depend on the raising behaviour.
`pyUnquote` models CPython's `unquote` exactly on percent-free input and on
percent sequences of ASCII bytes; multi-byte UTF-8 percent sequences are
outside the modelled domain, and theorems touching decoded query values
therefore assume percent-free input.
-/

namespace PdfScrape

/-- Python strings are modelled as lists of characters. -/
abbrev Str := List Char

/-- Coerce a Lean string literal to the model's string type. -/
def strL (s : String) : Str := s.data

/-- ASCII lower-casing of one character, as Python `str.lower` acts on ASCII. -/
def lowerAscii (c : Char) : Char :=
  if 'A' ≤ c ∧ c ≤ 'Z' then Char.ofNat (c.toNat + 32) else c

/-- Python `c.isascii() and c.isalpha()` for a single character. -/
def asciiAlpha (c : Char) : Bool :=
  ('a' ≤ c && c ≤ 'z') || ('A' ≤ c && c ≤ 'Z')

/-- `leadEq pat s` : `pat` is an initial run of `s` (Python `s.startswith(pat)`). -/
def leadEq : Str → Str → Bool
  | [], _ => true
  | _ :: _, [] => false
  | a :: as, b :: bs => a == b && leadEq as bs

/-- Python substring test `pat in s`. -/
def strHas (pat : Str) : Str → Bool
  | [] => leadEq pat []
  | s@(_ :: rest) => leadEq pat s || strHas pat rest

/-- Python `s.endswith(pat)`. -/
def strEndsWith (s pat : Str) : Bool := leadEq pat.reverse s.reverse

/-- Split a string at the first occurrence of `ch`; `none` when absent
(Python `s.split(ch, 1)` succeeding iff `ch in s`). -/
def splitFirst (ch : Char) : Str → Option (Str × Str)
  | [] => none
  | c :: cs =>
    if c = ch then some ([], cs)
    else match splitFirst ch cs with
      | some (a, b) => some (c :: a, b)
      | none => none

/-- Python `s.split(sep)` (full split, no limit). -/
def splitAll (sep : Char) : Str → List Str
  | [] => [[]]
  | c :: rest =>
    if c = sep then [] :: splitAll sep rest
    else match splitAll sep rest with
      | a :: r => (c :: a) :: r
      | [] => [[c]]

/-! ### `urllib.parse` model (CPython 3.11) -/

/-- `urllib.parse.scheme_chars`. -/
def schemeChars : Str :=
  strL "abcdefghijklmnopqrstuvwxyzABCDEFGHIJKLMNOPQRSTUVWXYZ0123456789+-."

/-- `urllib.parse.uses_netloc`. -/
def usesNetloc : List Str :=
  [[], strL "ftp", strL "http", strL "gopher", strL "nntp", strL "telnet",
   strL "imap", strL "wais", strL "file", strL "mms", strL "https", strL "shttp",
   strL "snews", strL "prospero", strL "rtsp", strL "rtspu", strL "rsync",
   strL "svn", strL "svn+ssh", strL "sftp", strL "nfs", strL "git", strL "git+ssh",
   strL "ws", strL "wss"]

/-- `urllib.parse.uses_params`. -/
def usesParams : List Str :=
  [[], strL "ftp", strL "hdl", strL "prospero", strL "http", strL "imap",
   strL "https", strL "shttp", strL "rtsp", strL "rtspu", strL "sip", strL "sips",
   strL "mms", strL "sftp", strL "tel"]

/-- `urlsplit` first removes `_UNSAFE_URL_BYTES_TO_REMOVE = ['\t', '\r', '\n']`. -/
def pyRemoveUnsafe (u : Str) : Str :=
  u.filter (fun c => !(c == '\t' || c == '\r' || c == '\n'))

/-- The scheme test of `urlsplit`: `i > 0 and url[0].isascii() and url[0].isalpha()`
and every character of `url[:i]` in `scheme_chars`. -/
def schemeOk (pre : Str) : Bool :=
  !pre.isEmpty && asciiAlpha (pre.headD ' ') && pre.all (fun c => schemeChars.contains c)

/-- Scheme extraction step of `urlsplit`: on success the scheme is lower-cased
and the remainder follows the first `':'`; otherwise the input is unchanged. -/
def schemeSplit (u : Str) : Str × Str :=
  match splitFirst ':' u with
  | some (pre, post) =>
    if schemeOk pre then (pre.map lowerAscii, post) else ([], u)
  | none => ([], u)

/-- Delimiters ending the netloc in `_splitnetloc`. -/
def netlocDelims : Str := ['/', '?', '#']

/-- `_splitnetloc(url, 2)` applied to the text already past the `"//"`. -/
def splitNetloc (rest : Str) : Str × Str :=
  (rest.takeWhile (fun c => !netlocDelims.contains c),
   rest.dropWhile (fun c => !netlocDelims.contains c))

/-- Result record of `urlsplit`. -/
structure SplitResult where
  scheme : Str
  netloc : Str
  path : Str
  query : Str
  fragment : Str
deriving DecidableEq, Repr

/-- Python `if ch in s: a, b = s.split(ch, 1)` with `(s, '')` when absent —
the fragment and query extraction steps of `urlsplit`. -/
def splitOnOpt (ch : Char) (s : Str) : Str × Str :=
  match splitFirst ch s with
  | some (a, b) => (a, b)
  | none => (s, [])

/-- CPython 3.11 `urllib.parse.urlsplit` (total model; see the header note on
the two `ValueError` branches, characterised by `pyUrlsplitOk`). -/
def pyUrlsplit (u0 : Str) : SplitResult :=
  let u := pyRemoveUnsafe u0
  let sp := schemeSplit u
  let np :=
    if sp.2.take 2 = ['/', '/'] then splitNetloc (sp.2.drop 2) else ([], sp.2)
  let fp := splitOnOpt '#' np.2
  let qp := splitOnOpt '?' fp.1
  ⟨sp.1, np.1, qp.1, qp.2, fp.2⟩

/-- Sufficient condition for `urlsplit` not to raise: square brackets in the
netloc are balanced-or-absent and the netloc is ASCII (then `_checknetloc`
returns immediately). -/
def pyUrlsplitOk (u : Str) : Bool :=
  let n := (pyUrlsplit u).netloc
  (n.contains '[' == n.contains ']') && n.all (fun c => c.toNat < 128)

/-- CPython 3.11 `urllib.parse.urlunsplit`. -/
def pyUrlunsplit (r : SplitResult) : Str :=
  let url0 := r.path
  let url1 :=
    if r.netloc ≠ [] ∨ (r.scheme ≠ [] ∧ r.scheme ∈ usesNetloc ∧ url0.take 2 ≠ ['/', '/']) then
      let u := if url0 ≠ [] ∧ url0.take 1 ≠ ['/'] then '/' :: url0 else url0
      '/' :: '/' :: (r.netloc ++ u)
    else url0
  let url2 := if r.scheme ≠ [] then r.scheme ++ ':' :: url1 else url1
  let url3 := if r.query ≠ [] then url2 ++ '?' :: r.query else url2
  if r.fragment ≠ [] then url3 ++ '#' :: r.fragment else url3

/-- Python `s.rfind('/')` expressed as a split at the last `'/'`:
`splitLastSlash s = some (a, b)` with `s = a ++ '/' :: b` and `'/' ∉ b`. -/
def splitLastSlash : Str → Option (Str × Str)
  | [] => none
  | c :: cs =>
    match splitLastSlash cs with
    | some (a, b) => some (c :: a, b)
    | none => if c = '/' then some ([], cs) else none

/-- `urllib.parse._splitparams`. -/
def splitParams (p : Str) : Str × Str :=
  match splitLastSlash p with
  | some (a, b) =>
    match splitFirst ';' b with
    | some (b1, b2) => (a ++ '/' :: b1, b2)
    | none => (p, [])
  | none =>
    match splitFirst ';' p with
    | some (p1, p2) => (p1, p2)
    | none => (p, [])

/-- Result record of `urlparse` (adds `params`). -/
structure ParseResult where
  scheme : Str
  netloc : Str
  path : Str
  params : Str
  query : Str
  fragment : Str
deriving DecidableEq, Repr

/-- CPython 3.11 `urllib.parse.urlparse`. -/
def pyUrlparse (u : Str) : ParseResult :=
  let r := pyUrlsplit u
  if r.scheme ∈ usesParams ∧ ';' ∈ r.path then
    let pp := splitParams r.path
    ⟨r.scheme, r.netloc, pp.1, pp.2, r.query, r.fragment⟩
  else ⟨r.scheme, r.netloc, r.path, [], r.query, r.fragment⟩

/-- `ParseResult.geturl`, i.e. `urlunparse`: re-join `path;params`, then
`urlunsplit`. -/
def pyGeturl (p : ParseResult) : Str :=
  let joined := if p.params ≠ [] then p.path ++ ';' :: p.params else p.path
  pyUrlunsplit ⟨p.scheme, p.netloc, joined, p.query, p.fragment⟩

/-! ### `pdf_crawler.py` helpers -/

/-- `normalize` of `pdf_crawler.py` (and the fragment-stripping step of
`PDFScraper.normalize_url`): `urlparse(url)._replace(fragment="").geturl()`. -/
def normalize (u : Str) : Str :=
  let p := pyUrlparse u
  pyGeturl ⟨p.scheme, p.netloc, p.path, p.params, p.query, []⟩

/-- One position of `PDF_EXT_REGEX = re.compile(r"\.pdf($|[?#])", re.IGNORECASE)`:
a case-insensitive `.pdf` here, followed by end of string, `'?'`, or `'#'`. -/
def pdfExtAt : Str → Bool
  | c1 :: c2 :: c3 :: c4 :: rest =>
    lowerAscii c1 == '.' && lowerAscii c2 == 'p' && lowerAscii c3 == 'd' &&
    lowerAscii c4 == 'f' &&
    (rest.isEmpty || rest.headD ' ' == '?' || rest.headD ' ' == '#')
  | _ => false

/-- `PDF_EXT_REGEX.search(s)`: some position of `s` matches `pdfExtAt`. -/
def pdfExtSearch : Str → Bool
  | [] => false
  | s@(_ :: rest) => pdfExtAt s || pdfExtSearch rest

/-! ### `parse_qs` model -/

/-- Value of a hexadecimal digit. -/
def hexVal (c : Char) : Option Nat :=
  if '0' ≤ c ∧ c ≤ '9' then some (c.toNat - 48)
  else if 'a' ≤ c ∧ c ≤ 'f' then some (c.toNat - 87)
  else if 'A' ≤ c ∧ c ≤ 'F' then some (c.toNat - 55)
  else none

/-- `urllib.parse.unquote`, modelled byte-wise: exact on percent-free input and
on `%XX` sequences denoting ASCII bytes; multi-byte UTF-8 sequences are outside
the modelled domain (see the header note). -/
def pyUnquote : Str → Str
  | [] => []
  | '%' :: a :: b :: rest2 =>
    (match hexVal a, hexVal b with
     | some x, some y => Char.ofNat (16 * x + y) :: pyUnquote rest2
     | _, _ => '%' :: pyUnquote (a :: b :: rest2))
  | c :: rest => c :: pyUnquote rest

/-- The `name.replace('+', ' ')` step of `parse_qsl` followed by `unquote`. -/
def pyUnquotePlus (s : Str) : Str :=
  pyUnquote (s.map (fun c => if c = '+' then ' ' else c))

/-- `urllib.parse.parse_qsl(qs)` with the default arguments used by the
repository (`keep_blank_values=False`, `strict_parsing=False`, `separator='&'`):
empty chunks, chunks without `'='` and blank values are dropped. -/
def pyParseQsl (qs : Str) : List (Str × Str) :=
  (splitAll '&' qs).filterMap (fun nv =>
    if nv = [] then none
    else match splitFirst '=' nv with
      | none => none
      | some (n, v) =>
        if v = [] then none
        else some (pyUnquotePlus n, pyUnquotePlus v))

/-- `parse_qs(qs).get(key, [])`: the values for `key`, in order of appearance
(the dict built by `parse_qs` groups values per name preserving order). -/
def qsGet (qs : Str) (key : Str) : List Str :=
  ((pyParseQsl qs).filter (fun p => p.1 == key)).map (fun p => p.2)

/-! ### `pdf_crawler.py`: classifier and resolver -/

/-- `VIEWER_HOST_HINTS`. -/
def VIEWER_HOST_HINTS : List Str :=
  [strL "drive.google.com", strL "docs.google.com", strL "sites.google.com",
   strL "onedrive.live.com", strL "sharepoint.com", strL "box.com", strL "dropbox.com"]

/-- `VIEWER_PATH_HINTS`. -/
def VIEWER_PATH_HINTS : List Str :=
  [strL "/viewer", strL "pdfjs", strL "/embed", strL "/preview", strL "/view", strL "render"]

/-- The keys scanned by `looks_like_pdf_url` for PDF-bearing query parameters. -/
def pdfQueryKeys : List Str :=
  [strL "file", strL "url", strL "resource", strL "src", strL "document"]

/-- `looks_like_pdf_url` of `pdf_crawler.py`. -/
def looks_like_pdf_url (u : Str) : Bool :=
  if pdfExtSearch u then true
  else
    let parsed := pyUrlparse u
    if pdfQueryKeys.any (fun k => (qsGet parsed.query k).any (fun v => pdfExtSearch v)) then
      true
    else if VIEWER_HOST_HINTS.any (fun h => strHas h (parsed.netloc.map lowerAscii)) then
      true
    else
      VIEWER_PATH_HINTS.any (fun h => strHas h (parsed.path.map lowerAscii))

/-- `DRIVE_FILE_RE.match(url)` for
`https?://(?:drive|docs)\.google\.com/file/d/([^/]+)/` (IGNORECASE, anchored):
on success, the captured file id (the non-empty run of non-`'/'` characters
after `/file/d/`, which must be followed by `'/'`). -/
def driveFileMatch (u : Str) : Option Str :=
  let l := u.map lowerAscii
  let afterScheme : Option Str :=
    if leadEq (strL "https://") l then some (l.drop 8)
    else if leadEq (strL "http://") l then some (l.drop 7)
    else none
  match afterScheme with
  | none => none
  | some t =>
    let afterHost : Option Str :=
      if leadEq (strL "drive.google.com/file/d/") t then some (t.drop 24)
      else if leadEq (strL "docs.google.com/file/d/") t then some (t.drop 23)
      else none
    match afterHost with
    | none => none
    | some rest =>
      let fid := rest.takeWhile (fun c => c ≠ '/')
      if fid ≠ [] ∧ (rest.drop fid.length).take 1 = ['/'] then
        -- the capture group reflects the original (non-lowercased) characters
        some ((u.drop (u.length - rest.length)).takeWhile (fun c => c ≠ '/'))
      else none

/-- `is_drive_url` of `pdf_crawler.py`. -/
def is_drive_url (u : Str) : Bool :=
  let host := (pyUrlparse u).netloc.map lowerAscii
  strEndsWith host (strL "drive.google.com") || strEndsWith host (strL "docs.google.com")

/-- `resolve_drive_redirect` of `pdf_crawler.py`.  Note the literal `"htts://"`
in the first branch: the source builds the base with a misspelled scheme. -/
def resolve_drive_redirect (u : Str) : Option Str :=
  match driveFileMatch u with
  | some fid =>
    let q := (pyUrlparse u).query
    let rk := (qsGet q (strL "resourcekey")).head?
    let base := strL "htts://drive.google.com/uc?export=download&id=" ++ fid
    some (match rk with
          | some k => base ++ strL "&resourcekey=" ++ k
          | none => base)
  | none =>
    let q := (pyUrlparse u).query
    let fid? :=
      match qsGet q (strL "id") with
      | v :: _ => some v
      | [] => (qsGet q (strL "docid")).head?
    match fid? with
    | some fid =>
      let rk := (qsGet q (strL "resourcekey")).head?
      let base := strL "https://drive.google.com/uc?export=download&id=" ++ fid
      some (match rk with
            | some k => base ++ strL "&resourcekey=" ++ k
            | none => base)
    | none => none

/-! ### `gui_scraper.py`: cloud-link transforms -/

/-- `re.search(r'/file/d/([a-zA-Z0-9_-]+)', url)` of
`EnhancedPDFScraper.transform_google_drive_url`: the maximal run of
`[a-zA-Z0-9_-]` after the first occurrence of `/file/d/`. -/
def guiDriveIdSearch : Str → Option Str
  | [] => none
  | s@(_ :: rest) =>
    if leadEq (strL "/file/d/") s then
      let fid := (s.drop 8).takeWhile
        (fun c => asciiAlpha c || ('0' ≤ c && c ≤ '9') || c == '_' || c == '-')
      if fid ≠ [] then some fid else guiDriveIdSearch rest
    else guiDriveIdSearch rest

/-- `EnhancedPDFScraper.transform_google_drive_url`. -/
def transform_google_drive_url (u : Str) : Str :=
  let fid? : Option Str :=
    match guiDriveIdSearch u with
    | some fid => some fid
    | none =>
      if strHas (strL "open?id=") u then
        match qsGet (pyUrlparse u).query (strL "id") with
        | v :: _ => some v
        | [] => none
      else if strHas (strL "uc?id=") u then
        match qsGet (pyUrlparse u).query (strL "id") with
        | v :: _ => some v
        | [] => none
      else none
  match fid? with
  | some fid => strL "https://drive.google.com/uc?export=download&id=" ++ fid
  | none => u

/-- Python `s.replace(old, new)`, modelled for non-empty patterns (the sources
only replace `"?dl=0"`). -/
def strReplace (old new : Str) : Str → Str
  | [] => []
  | c :: rest =>
    if leadEq old (c :: rest) && !old.isEmpty then
      new ++ strReplace old new ((c :: rest).drop old.length)
    else c :: strReplace old new rest
termination_by s => s.length
decreasing_by
  · rename_i h
    simp only [Bool.and_eq_true, Bool.not_eq_true', List.isEmpty_eq_false_iff_exists_mem] at h
    have hp : 0 < old.length := by
      cases old with
      | nil => simp at h
      | cons x xs => simp
    simp only [List.length_drop, List.length_cons]
    omega
  · simp

/-- `EnhancedPDFScraper.transform_dropbox_url`. -/
def transform_dropbox_url (u : Str) : Str :=
  if strHas (strL "dropbox.com/s/") u || strHas (strL "dropbox.com/sh/") u then
    if strHas (strL "?dl=0") u then strReplace (strL "?dl=0") (strL "?dl=1") u
    else if !(strHas (strL "?dl=") u) then
      u ++ (if strHas (strL "?") u then strL "&dl=1" else strL "?dl=1")
    else u
  else if strHas (strL "dropbox.com/scl/fi/") u then
    if strHas (strL "?dl=0") u then strReplace (strL "?dl=0") (strL "?dl=1") u
    else if !(strHas (strL "dl=") u) then
      u ++ (if strHas (strL "?") u then strL "&dl=1" else strL "?dl=1")
    else u
  else u

/-! ### `pdf_crawler.py` phase 2: verification with an explicit request log

The network is a transport oracle; every HEAD/GET issued is recorded, so
"no network call" is the statement that the log of a run is empty. -/

/-- An HTTP response as seen by `head_is_pdf`/`get_is_pdf`: the raw
`Content-Type` header (absent header modelled as `[]`, matching
`headers.get("Content-Type") or ""`) and the status code. -/
structure HttpResp where
  ctype : Str
  status : Nat
deriving DecidableEq, Repr

/-- Transport oracle; `none` models a `requests.RequestException`. -/
structure Transport where
  headResp : Str → Option HttpResp
  getResp : Str → Option HttpResp

/-- A network request issued during verification. -/
inductive NetReq where
  | head (u : Str)
  | get (u : Str)
deriving DecidableEq, Repr

/-- `(... or "").split(";")[0].lower()` applied to a Content-Type header. -/
def ctypeNorm (s : Str) : Str := (s.takeWhile (fun c => c ≠ ';')).map lowerAscii

/-- Outcome triple `(is_pdf, content_type, status_code)` of
`head_is_pdf`/`get_is_pdf`. -/
structure ProbeOut where
  ispdf : Bool
  ctype : Str
  code : Nat
deriving DecidableEq, Repr

/-- `head_is_pdf` of `pdf_crawler.py`, with its issued request. -/
def head_is_pdf (t : Transport) (u : Str) : ProbeOut × List NetReq :=
  match t.headResp u with
  | some r =>
    let c := ctypeNorm r.ctype
    (⟨c == strL "application/pdf", c, r.status⟩, [NetReq.head u])
  | none => (⟨false, [], 0⟩, [NetReq.head u])

/-- `get_is_pdf` of `pdf_crawler.py` (streamed GET reading headers only). -/
def get_is_pdf (t : Transport) (u : Str) : ProbeOut × List NetReq :=
  match t.getResp u with
  | some r =>
    let c := ctypeNorm r.ctype
    (⟨c == strL "application/pdf", c, r.status⟩, [NetReq.get u])
  | none => (⟨false, [], 0⟩, [NetReq.get u])

/-- The recurring `head_is_pdf`-then-`get_is_pdf` fallback of phase 2. -/
def probePdf (t : Transport) (u : Str) : ProbeOut × List NetReq :=
  let h := head_is_pdf t u
  if h.1.ispdf then h
  else
    let g := get_is_pdf t u
    (g.1, h.2 ++ g.2)

/-- A row of the `verified_pdfs` sheet; `http_status = none` models the empty
string written in the extension case. -/
structure VerifiedRow where
  pdf_url : Str
  found_via : Str
  source_url : Str
  found_on_page : Str
  http_status : Option Nat
  content_type : Str
deriving DecidableEq, Repr

/-- Python `found_on.split("; ")[0]` (and `""` when `found_on` is empty). -/
def firstSemiSpace : Str → Str
  | [] => []
  | ';' :: ' ' :: _ => []
  | c :: rest => c :: firstSemiSpace rest

/-- Phase 2 of `crawl_pdfs` for one candidate (lines 213–284): Case A accepts a
`PDF_EXT_REGEX` match immediately, Case B resolves and probes Google Drive
links, Case C probes everything else; the second component is the list of
network requests issued. -/
def verify_candidate (t : Transport) (cand found_on : Str) :
    Option VerifiedRow × List NetReq :=
  if pdfExtSearch cand then
    (some ⟨cand, strL "extension", cand, firstSemiSpace found_on, none, []⟩, [])
  else if is_drive_url cand then
    let step1 : Option (Str × ProbeOut) × List NetReq :=
      match resolve_drive_redirect cand with
      | some direct =>
        let p := probePdf t direct
        if p.1.ispdf then (some (direct, p.1), p.2) else (none, p.2)
      | none => (none, [])
    match step1 with
    | (some (fu, pr), log) =>
      (some ⟨fu,
             if fu ≠ cand then strL "google_drive_resolved" else strL "google_drive_viewer",
             cand, firstSemiSpace found_on, some pr.code, pr.ctype⟩, log)
    | (none, log1) =>
      let p := probePdf t cand
      if p.1.ispdf then
        (some ⟨cand, strL "google_drive_viewer", cand, firstSemiSpace found_on,
               some p.1.code, p.1.ctype⟩, log1 ++ p.2)
      else (none, log1 ++ p.2)
  else
    let p := probePdf t cand
    if p.1.ispdf then
      (some ⟨cand, strL "verified_head/get", cand, firstSemiSpace found_on,
             some p.1.code, p.1.ctype⟩, p.2)
    else (none, p.2)

/-- `is_confirmed_pdf` of `EnhancedPDFScraper.process_pdf_url` (gui_scraper.py
lines 1107–1108). -/
def gui_is_confirmed_pdf (u : Str) : Bool :=
  strEndsWith (u.map lowerAscii) (strL ".pdf") ||
  strEndsWith (u.map lowerAscii) (strL ".pdf?")

/-- The verification requests issued by `process_pdf_url` (lines 1109–1125): a
HEAD is sent iff `needs_verification = not is_confirmed_pdf`. -/
def gui_verification_requests (u : Str) : List NetReq :=
  if !gui_is_confirmed_pdf u then [NetReq.head u] else []

/-! ### `pdf_crawler.py` phase 1: the candidate table -/

/-- One entry of `candidates_seen`: the reason tags and source pages collected
for a candidate URL (Python sets, modelled as duplicate-free lists). -/
structure CandRec where
  reasons : List Str
  found_on_pages : List Str
deriving DecidableEq, Repr

instance : Inhabited CandRec := ⟨⟨[], []⟩⟩

/-- One sighting processed by the loop of lines 196–208: a detection tag
(`"anchor"`, `"iframe"`, `"embed"`, `"object"`, `"link"`, `"inline"`), the raw
URL and the page it was found on. -/
structure Sighting where
  reason : Str
  url : Str
  page : Str
deriving DecidableEq, Repr

/-- Set insertion (Python `set.add`). -/
def setAdd (x : Str) (l : List Str) : List Str := if x ∈ l then l else l ++ [x]

/-- `candidates_seen[url]` update: the `defaultdict` lookup of line 205 plus
the two `add`s of lines 206–207. -/
def updateCand : List (Str × CandRec) → Str → Str → Str → List (Str × CandRec)
  | [], u, r, p => [(u, ⟨[r], [p]⟩)]
  | (k, c) :: rest, u, r, p =>
    if k = u then (k, ⟨setAdd r c.reasons, setAdd p c.found_on_pages⟩) :: rest
    else (k, c) :: updateCand rest u r p

/-- Lines 196–207 for one candidate `(reason, url)` on a page: normalize, then
record it iff `looks_like_pdf_url` holds of the normalized URL. -/
def collectStep (m : List (Str × CandRec)) (e : Sighting) : List (Str × CandRec) :=
  let u := normalize e.url
  if looks_like_pdf_url u then updateCand m u e.reason e.page else m

/-- The candidate table produced by phase 1 from a stream of sightings. -/
def candidates_seen (evs : List Sighting) : List (Str × CandRec) :=
  evs.foldl collectStep []

/-- Some sighting in `evs` normalizes to the key `k`, is classified
document-looking, and carries attribute `f` equal to `x`. -/
def SightingMatches (evs : List Sighting) (k : Str) (f : Sighting → Str) (x : Str) : Prop :=
  ∃ e, e ∈ evs ∧ normalize e.url = k ∧ looks_like_pdf_url k = true ∧ f e = x

/-- The phase-1 table invariant: keys are distinct normalized URLs, a key is
present iff some processed sighting produced it, and each record holds exactly
the union of the reason tags and source pages of the sightings for its key —
in particular a non-empty reason set. -/
def CandInv (past : List Sighting) (m : List (Str × CandRec)) : Prop :=
  (m.map Prod.fst).Nodup ∧
  (∀ k, k ∈ m.map Prod.fst ↔
    ∃ e, e ∈ past ∧ normalize e.url = k ∧ looks_like_pdf_url k = true) ∧
  (∀ k rec, (k, rec) ∈ m →
    rec.reasons ≠ [] ∧
    (∀ x, x ∈ rec.reasons ↔ SightingMatches past k Sighting.reason x) ∧
    (∀ x, x ∈ rec.found_on_pages ↔ SightingMatches past k Sighting.page x))

/-! ### `pdf_scraper.py`: `PDFScraper.download_pdf` and `crawl` state -/

/-- The response seen by `download_pdf`'s GET: whether `raise_for_status`
passes, the `content-type` header, and the streamed body bytes. -/
structure DlResp where
  ok : Bool
  content_type : Str
  body : List Nat
deriving DecidableEq, Repr

/-- The mutable state of a `PDFScraper` instance touched by
`download_pdf`/`crawl`, plus a log of the GET requests `download_pdf` issues
and the saved files (path ↦ bytes). -/
structure ScraperState where
  visited_urls : List Str
  found_pdfs : List Str
  downloaded_pdfs : List Str
  skipped_pdfs : List (Str × Str)
  failed_downloads : List (Str × Str)
  pdf_sources : List (Str × Str)
  files : List (Str × List Nat)
  getLog : List Str
deriving DecidableEq, Repr

/-- Python dict assignment `d[k] = v`. -/
def dictSet {α : Type} : List (Str × α) → Str → α → List (Str × α)
  | [], k, v => [(k, v)]
  | (a, b) :: rest, k, v =>
    if a = k then (a, v) :: rest else (a, b) :: dictSet rest k v

/-- `os.remove(path)` on the saved-files map. -/
def fsRemove (files : List (Str × List Nat)) (k : Str) : List (Str × List Nat) :=
  files.filter (fun p => p.1 ≠ k)

/-- `os.path.basename` of a POSIX path. -/
def basename (p : Str) : Str :=
  match splitLastSlash p with
  | some (_, b) => b
  | none => p

/-- Lines 162–164: the target file name derived from the URL path. -/
def pdf_name (url : Str) : Str :=
  let n := basename (pyUrlparse url).path
  if strEndsWith n (strL ".pdf") then n else n ++ strL ".pdf"

/-- `os.path.join(output_dir, pdf_name)` for a directory without trailing
slash. -/
def pdf_path (output_dir : Str) (url : Str) : Str :=
  output_dir ++ '/' :: pdf_name url

/-- The 4-byte signature `b'%PDF'`. -/
def PDF_MAGIC : List Nat := [0x25, 0x50, 0x44, 0x46]

/-- Byte-list variant of `leadEq` (Python `bytes.startswith`). -/
def leadEqN : List Nat → List Nat → Bool
  | [], _ => true
  | _ :: _, [] => false
  | a :: as, b :: bs => a == b && leadEqN as bs

/-- `PDFScraper.download_pdf` (lines 152–238).  `robots_allow` is the
`can_fetch` collaborator's verdict and `resp` the transport's answer to the
GET (`none` = `requests` exception; SSL and generic request errors are
collapsed into one failure reason). -/
def download_pdf (output_dir : Str) (robots_allow : Bool) (resp : Option DlResp)
    (st : ScraperState) (url : Str) : Option Str × ScraperState :=
  if !robots_allow then
    (none, { st with skipped_pdfs := dictSet st.skipped_pdfs url (strL "Blocked by robots.txt") })
  else
    let path := pdf_path output_dir url
    if url ∈ st.downloaded_pdfs then
      (some path, { st with skipped_pdfs := dictSet st.skipped_pdfs url (strL "Already downloaded") })
    else
      let st1 := { st with getLog := st.getLog ++ [url] }
      match resp with
      | none =>
        (none, { st1 with failed_downloads := dictSet st1.failed_downloads url (strL "Request Error") })
      | some r =>
        if !r.ok then
          (none, { st1 with failed_downloads := dictSet st1.failed_downloads url (strL "Request Error") })
        else
          let ct := r.content_type.map lowerAscii
          if !(strHas (strL "pdf") ct || strHas (strL "application/octet-stream") ct) then
            (none, { st1 with failed_downloads :=
                       dictSet st1.failed_downloads url (strL "Invalid content type: " ++ ct) })
          else
            let st2 := { st1 with files := dictSet st1.files path r.body }
            if !leadEqN PDF_MAGIC (r.body.take 4) then
              (none, { st2 with files := fsRemove st2.files path,
                                failed_downloads :=
                                  dictSet st2.failed_downloads url (strL "Not a valid PDF file") })
            else
              (some path,
               { st2 with downloaded_pdfs := st2.downloaded_pdfs ++ [url],
                          pdf_sources := dictSet st2.pdf_sources (pdf_name url) url })

/-- The initialisation of `PDFScraper.crawl` (lines 298–303): the visited and
found sets are cleared; `downloaded_pdfs` (and the rest) are not touched. -/
def crawl_init (st : ScraperState) : ScraperState :=
  { st with visited_urls := [], found_pdfs := [] }

/-! ### `pdf_scraper.py`: `PDFScraper.is_valid_url` -/

/-- `PDFScraper.is_valid_url` (lines 117–150).  The `try: urlparse` guard is
modelled by `pyUrlsplitOk`; the base URL is parsed outside any guard, so
theorems about this function assume the base itself parses cleanly. -/
def is_valid_url (base_url : Str) (url : Str) : Bool :=
  if [strL "mailto:", strL "tel:", strL "sms:", strL "fax:"].any (fun p => leadEq p url) then
    false
  else if !pyUrlsplitOk url then false
  else
    let parsed := pyUrlparse url
    if parsed.netloc = [] ∧ parsed.path = [] then false
    else if '@' ∈ url then false
    else
      let base_domain := (pyUrlparse base_url).netloc
      strHas base_domain parsed.netloc || parsed.netloc == []

/-! ### `gui_scraper.py`: `EnhancedPDFScraper.crawl` -/

/-- The collaborators of the gui crawl loop: the robots verdict and the page
fetch, abstracted to the links it contributes to the queue (`none` models any
exception inside the `try`). -/
structure GuiSite where
  canFetch : Str → Bool
  fetch : Str → Option (List Str)

/-- Loop state of `EnhancedPDFScraper.crawl`, with a log of pages fetched. -/
structure GuiCrawlState where
  queue : List (Str × Nat)
  visited_urls : List Str
  fetchLog : List Str
deriving DecidableEq, Repr

/-- The link-enqueue loop of lines 576–580: each link is appended at depth
`d + 1` iff it is neither visited nor already queued at that moment. -/
def guiEnqueue (d : Nat) (st : GuiCrawlState) (links : List Str) : GuiCrawlState :=
  links.foldl (fun s l =>
    if l ∉ s.visited_urls ∧ s.queue.all (fun q => q.1 ≠ l) then
      { s with queue := s.queue ++ [(l, d + 1)] }
    else s) st

/-- `EnhancedPDFScraper.crawl`'s loop (lines 523–597).  `stop i` is the value
of `self.stop_scraping` observed by the `while` condition of iteration `i`
(the GUI thread may set it between iterations); fuel only bounds the
recursion and never cuts a run short in the theorems below. -/
def gui_crawl_loop (site : GuiSite) (stop : Nat → Bool) (max_depth : Nat) :
    Nat → Nat → GuiCrawlState → GuiCrawlState
  | 0, _, st => st
  | fuel + 1, i, st =>
    if st.queue = [] then st
    else if stop i then st
    else
      match st.queue with
      | [] => st
      | (u, d) :: rest =>
        let st1 :=
          if d > max_depth ∨ u ∈ st.visited_urls then { st with queue := rest }
          else
            let stv := { st with queue := rest, visited_urls := st.visited_urls ++ [u] }
            if !site.canFetch u then stv
            else
              match site.fetch u with
              | none => stv
              | some links =>
                let stf := { stv with fetchLog := stv.fetchLog ++ [u] }
                if d < max_depth then guiEnqueue d stf links else stf
        gui_crawl_loop site stop max_depth fuel (i + 1) st1

/-- A full gui crawl from `(base_url, 0)` with cleared sets. -/
def gui_crawl (site : GuiSite) (stop : Nat → Bool) (max_depth : Nat) (fuel : Nat)
    (base_url : Str) : GuiCrawlState :=
  gui_crawl_loop site stop max_depth fuel 0 ⟨[(base_url, 0)], [], []⟩

/-! ### Concrete inputs used in counterexamples and witnesses -/

/-- A fresh `PDFScraper` tracking state. -/
def emptyScraperState : ScraperState := ⟨[], [], [], [], [], [], [], []⟩

/-- A transport that answers nothing (any request would be an exception). -/
def deadTransport : Transport := ⟨fun _ => none, fun _ => none⟩

/-- Seed page of the two-page example site. -/
def exSeed : Str := strL "https://s.test/"

/-- The one link on the seed page of the example site. -/
def exLink : Str := strL "https://s.test/a"

/-- Example site: the seed page links to one same-site page; robots allows
everything. -/
def exSite : GuiSite :=
  ⟨fun _ => true, fun u => if u = exSeed then some [exLink] else none⟩

/-- A stop signal raised after the first dequeue iteration. -/
def stopAfterFirst : Nat → Bool := fun i => decide (1 ≤ i)

/-- A character `urlsplit` does not strip (`not in '\t\r\n'`). -/
def safeChar (c : Char) : Prop := ¬(c = '\t' ∨ c = '\r' ∨ c = '\n')

instance (c : Char) : Decidable (safeChar c) := by
  unfold safeChar
  infer_instance

end PdfScrape

namespace PdfScrape

/-! ## Helper lemmas -/

theorem splitFirst_eq_some {ch : Char} {s a b : Str}
    (h : splitFirst ch s = some (a, b)) : s = a ++ ch :: b ∧ ch ∉ a := by
  induction s generalizing a with
  | nil => simp [splitFirst] at h
  | cons c cs ih =>
    by_cases hc : c = ch
    · simp [splitFirst, hc] at h
      obtain ⟨rfl, rfl⟩ := h
      simp [hc]
    · simp only [splitFirst, if_neg hc] at h
      cases hsp : splitFirst ch cs with
      | none => rw [hsp] at h; simp at h
      | some ab =>
        obtain ⟨a', b'⟩ := ab
        rw [hsp] at h
        simp at h
        obtain ⟨rfl, rfl⟩ := h
        obtain ⟨h1, h2⟩ := ih hsp
        constructor
        · simp [← h1]
        · simp [List.mem_cons, h2]
          exact fun he => hc he.symm

theorem splitFirst_eq_none {ch : Char} {s : Str}
    (h : splitFirst ch s = none) : ch ∉ s := by
  induction s with
  | nil => simp
  | cons c cs ih =>
    by_cases hc : c = ch
    · simp [splitFirst, hc] at h
    · simp only [splitFirst, if_neg hc] at h
      cases hsp : splitFirst ch cs with
      | none =>
        simp [List.mem_cons]
        exact ⟨fun he => hc he.symm, ih hsp⟩
      | some ab => rw [hsp] at h; simp at h

theorem splitFirst_append_cons {ch : Char} {a : Str} (b : Str) (ha : ch ∉ a) :
    splitFirst ch (a ++ ch :: b) = some (a, b) := by
  induction a with
  | nil => simp [splitFirst]
  | cons c cs ih =>
    have hc : ¬(c = ch) := fun h => ha (h ▸ List.mem_cons_self c cs)
    have ha' : ch ∉ cs := fun h => ha (List.mem_cons_of_mem c h)
    simp [splitFirst, hc, ih ha']

theorem splitFirst_not_mem {ch : Char} {s : Str} (h : ch ∉ s) :
    splitFirst ch s = none := by
  induction s with
  | nil => rfl
  | cons c cs ih =>
    have hc : ¬(c = ch) := fun he => h (he ▸ List.mem_cons_self c cs)
    have h' : ch ∉ cs := fun hm => h (List.mem_cons_of_mem c hm)
    simp [splitFirst, hc, ih h']

theorem leadEq_iff {pat s : Str} : leadEq pat s = true ↔ ∃ t, s = pat ++ t := by
  induction pat generalizing s with
  | nil => simp [leadEq]
  | cons c cs ih =>
    cases s with
    | nil =>
      simp [leadEq]
    | cons d ds =>
      simp only [leadEq, Bool.and_eq_true, beq_iff_eq, ih, List.cons_append]
      constructor
      · rintro ⟨rfl, t, rfl⟩; exact ⟨t, rfl⟩
      · rintro ⟨t, h⟩
        injection h with h1 h2
        exact ⟨h1.symm, t, h2⟩

theorem strEndsWith_iff {s pat : Str} : strEndsWith s pat = true ↔ ∃ t, s = t ++ pat := by
  unfold strEndsWith
  rw [leadEq_iff]
  constructor
  · rintro ⟨t, h⟩
    refine ⟨t.reverse, ?_⟩
    have := congrArg List.reverse h
    simpa using this
  · rintro ⟨t, rfl⟩
    exact ⟨t.reverse, by simp⟩

theorem pdfExtSearch_append {s : Str} (a : Str) (h : pdfExtSearch s = true) :
    pdfExtSearch (a ++ s) = true := by
  induction a with
  | nil => simpa
  | cons c cs ih =>
    cases hcs : cs ++ s with
    | nil =>
      exfalso
      rcases List.append_eq_nil.mp hcs with ⟨-, rfl⟩
      simp [pdfExtSearch] at h
    | cons d ds =>
      show pdfExtSearch (c :: cs ++ s) = true
      rw [List.cons_append, hcs]
      show (pdfExtAt (c :: d :: ds) || pdfExtSearch (d :: ds)) = true
      rw [← hcs, ih]
      simp

theorem pdfExtSearch_of_at {s : Str} (h : pdfExtAt s = true) :
    pdfExtSearch s = true := by
  cases s with
  | nil => simp [pdfExtAt] at h
  | cons c cs =>
    show (pdfExtAt (c :: cs) || pdfExtSearch cs) = true
    simp [h]

theorem setAdd_ne_nil (x : Str) (l : List Str) : setAdd x l ≠ [] := by
  unfold setAdd
  split
  · rename_i h
    exact List.ne_nil_of_mem h
  · simp

theorem mem_setAdd {x y : Str} {l : List Str} : y ∈ setAdd x l ↔ y = x ∨ y ∈ l := by
  unfold setAdd
  split
  · rename_i h
    constructor
    · exact fun hy => Or.inr hy
    · rintro (rfl | hy)
      exacts [h, hy]
  · simp [or_comm]

theorem mem_dictSet_self {α : Type} (l : List (Str × α)) (k : Str) (v : α) :
    (k, v) ∈ dictSet l k v := by
  induction l with
  | nil => simp [dictSet]
  | cons q rest ih =>
    obtain ⟨a, b⟩ := q
    unfold dictSet
    by_cases h : a = k
    · subst h; simp
    · simp only [if_neg h, List.mem_cons]
      exact Or.inr ih

/-! ## Claim theorems -/

/-- C3.  A candidate matching `PDF_EXT_REGEX` is accepted by phase 2 of
`crawl_pdfs` immediately, with `found_via = "extension"` (the spec's
`extension-match`), empty status/content-type fields, and an empty request
log — no HEAD and no GET touches the transport.  Likewise, the gui verifier
`process_pdf_url` issues no verification HEAD when its own extension test
`is_confirmed_pdf` holds of the URL. -/
theorem verify_extension_no_network (t : Transport) (cand found_on gu : Str)
    (h : pdfExtSearch cand = true) (hg : gui_is_confirmed_pdf gu = true) :
    verify_candidate t cand found_on =
      (some ⟨cand, strL "extension", cand, firstSemiSpace found_on, none, []⟩, []) ∧
    gui_verification_requests gu = [] := by
  constructor
  · unfold verify_candidate
    simp [h]
  · unfold gui_verification_requests
    simp [hg]

/-- C3 witness: concrete run at a `.pdf` URL against a dead transport. -/
theorem verify_extension_no_network_witness :
    verify_candidate deadTransport (strL "https://s.test/a.pdf") (strL "https://s.test/") =
      (some ⟨strL "https://s.test/a.pdf", strL "extension", strL "https://s.test/a.pdf",
             firstSemiSpace (strL "https://s.test/"), none, []⟩, []) ∧
    gui_verification_requests (strL "https://s.test/a.pdf") = [] :=
  verify_extension_no_network deadTransport _ _ _ (by decide) (by decide)

/-- C4.  When the fetched body does not begin with `%PDF`, `download_pdf`
removes the saved artifact, records the failure reason, returns no path, and
leaves the set of successfully downloaded PDFs unchanged. -/
theorem download_pdf_bad_signature (od : Str) (r : DlResp) (st : ScraperState)
    (url : Str) (bytes : List Nat)
    (hdl : url ∉ st.downloaded_pdfs) (hok : r.ok = true)
    (hct : (strHas (strL "pdf") (r.content_type.map lowerAscii)
            || strHas (strL "application/octet-stream") (r.content_type.map lowerAscii)) = true)
    (hsig : leadEqN PDF_MAGIC (r.body.take 4) = false) :
    (download_pdf od true (some r) st url).1 = none ∧
    (pdf_path od url, bytes) ∉ (download_pdf od true (some r) st url).2.files ∧
    (url, strL "Not a valid PDF file") ∈ (download_pdf od true (some r) st url).2.failed_downloads ∧
    (download_pdf od true (some r) st url).2.downloaded_pdfs = st.downloaded_pdfs ∧
    url ∉ (download_pdf od true (some r) st url).2.downloaded_pdfs := by
  refine ⟨?_, ?_, ?_, ?_, ?_⟩ <;>
    unfold download_pdf <;>
    simp [hdl, hok, hct, hsig, fsRemove, mem_dictSet_self, List.mem_filter]

/-- C4 witness: a body starting with `JUNK` is discarded and recorded failed. -/
theorem download_pdf_bad_signature_witness :
    (download_pdf (strL "downloads") true (some ⟨true, strL "application/pdf", [74, 85, 78, 75]⟩)
        emptyScraperState (strL "https://h.test/a.pdf")).1 = none ∧
    (pdf_path (strL "downloads") (strL "https://h.test/a.pdf"), [74, 85, 78, 75]) ∉
      (download_pdf (strL "downloads") true (some ⟨true, strL "application/pdf", [74, 85, 78, 75]⟩)
        emptyScraperState (strL "https://h.test/a.pdf")).2.files ∧
    (strL "https://h.test/a.pdf", strL "Not a valid PDF file") ∈
      (download_pdf (strL "downloads") true (some ⟨true, strL "application/pdf", [74, 85, 78, 75]⟩)
        emptyScraperState (strL "https://h.test/a.pdf")).2.failed_downloads ∧
    (download_pdf (strL "downloads") true (some ⟨true, strL "application/pdf", [74, 85, 78, 75]⟩)
        emptyScraperState (strL "https://h.test/a.pdf")).2.downloaded_pdfs =
      emptyScraperState.downloaded_pdfs ∧
    strL "https://h.test/a.pdf" ∉
      (download_pdf (strL "downloads") true (some ⟨true, strL "application/pdf", [74, 85, 78, 75]⟩)
        emptyScraperState (strL "https://h.test/a.pdf")).2.downloaded_pdfs :=
  download_pdf_bad_signature (strL "downloads") ⟨true, strL "application/pdf", [74, 85, 78, 75]⟩
    emptyScraperState (strL "https://h.test/a.pdf") [74, 85, 78, 75]
    (by decide) (by decide) (by decide) (by decide)

/-- C10.  A URL already in `downloaded_pdfs` is never fetched again by
`download_pdf`: the GET log is unchanged, and when robots allows the call
returns the previously computed local path while recording the skip; the
downloaded set is unchanged, and `crawl`'s initialisation does not clear it,
so the guarantee spans successive `crawl()` runs of one instance. -/
theorem download_pdf_at_most_once (od : Str) (robots : Bool) (resp : Option DlResp)
    (st : ScraperState) (url : Str) (h : url ∈ st.downloaded_pdfs) :
    (download_pdf od robots resp st url).2.getLog = st.getLog ∧
    (robots = true →
      (download_pdf od robots resp st url).1 = some (pdf_path od url) ∧
      (url, strL "Already downloaded") ∈ (download_pdf od robots resp st url).2.skipped_pdfs) ∧
    (download_pdf od robots resp st url).2.downloaded_pdfs = st.downloaded_pdfs ∧
    (crawl_init st).downloaded_pdfs = st.downloaded_pdfs := by
  unfold download_pdf crawl_init
  cases robots with
  | false => simp
  | true => simp [h, mem_dictSet_self]

/-- C10 witness: a second download of the same URL is skipped with the stored
path returned. -/
theorem download_pdf_at_most_once_witness :
    (download_pdf (strL "downloads") true none
      { emptyScraperState with downloaded_pdfs := [strL "https://h.test/a.pdf"] }
      (strL "https://h.test/a.pdf")).2.getLog =
      ({ emptyScraperState with downloaded_pdfs := [strL "https://h.test/a.pdf"] } :
        ScraperState).getLog ∧
    (true = true →
      (download_pdf (strL "downloads") true none
        { emptyScraperState with downloaded_pdfs := [strL "https://h.test/a.pdf"] }
        (strL "https://h.test/a.pdf")).1 =
        some (pdf_path (strL "downloads") (strL "https://h.test/a.pdf")) ∧
      (strL "https://h.test/a.pdf", strL "Already downloaded") ∈
        (download_pdf (strL "downloads") true none
          { emptyScraperState with downloaded_pdfs := [strL "https://h.test/a.pdf"] }
          (strL "https://h.test/a.pdf")).2.skipped_pdfs) ∧
    (download_pdf (strL "downloads") true none
      { emptyScraperState with downloaded_pdfs := [strL "https://h.test/a.pdf"] }
      (strL "https://h.test/a.pdf")).2.downloaded_pdfs =
      ({ emptyScraperState with downloaded_pdfs := [strL "https://h.test/a.pdf"] } :
        ScraperState).downloaded_pdfs ∧
    (crawl_init { emptyScraperState with
        downloaded_pdfs := [strL "https://h.test/a.pdf"] }).downloaded_pdfs =
      ({ emptyScraperState with downloaded_pdfs := [strL "https://h.test/a.pdf"] } :
        ScraperState).downloaded_pdfs :=
  download_pdf_at_most_once (strL "downloads") true none _ _ (by decide)

/-- C5.  Evaluating `resolve_drive_redirect` at the spec's own example: the
`/file/d/` branch rebuilds the URL with the misspelled scheme `htts://`
(pdf_crawler.py line 113), so the result is not the `https` direct-download
URL the docstring and spec intend, although it does contain
`uc?export=download&id=ABC123` and parses with host `drive.google.com`. -/
theorem resolve_drive_redirect_misspelled_scheme :
    resolve_drive_redirect (strL "https://drive.google.com/file/d/ABC123/view") =
      some (strL "htts://drive.google.com/uc?export=download&id=ABC123") ∧
    (pyUrlsplit (strL "htts://drive.google.com/uc?export=download&id=ABC123")).scheme =
      strL "htts" ∧
    strL "htts" ≠ strL "https" ∧
    strHas (strL "uc?export=download&id=ABC123")
      (strL "htts://drive.google.com/uc?export=download&id=ABC123") = true ∧
    (pyUrlsplit (strL "htts://drive.google.com/uc?export=download&id=ABC123")).netloc =
      strL "drive.google.com" := by
  refine ⟨by decide, by decide, by decide, by decide, by decide⟩

/-- C6 counterexample: on a URL matching no Drive pattern,
`resolve_drive_redirect` returns `None`, not the original URL unchanged as the
claim states. -/
theorem resolve_drive_redirect_no_match_none :
    resolve_drive_redirect (strL "https://example.com/page") = none := by
  decide

/-- C6 (amended).  When no provider pattern matches, `resolve_drive_redirect`
returns `None` (its caller then keeps the original URL), while the gui
transforms return the original URL unchanged; all three are total functions of
their input in this model (the gui transforms also wrap their bodies in
`try/except` returning the input). -/
theorem resolver_no_match_behavior (u1 u2 u3 : Str)
    (h1 : driveFileMatch u1 = none)
    (h2 : qsGet (pyUrlparse u1).query (strL "id") = [])
    (h3 : qsGet (pyUrlparse u1).query (strL "docid") = [])
    (h4 : guiDriveIdSearch u2 = none)
    (h5 : strHas (strL "open?id=") u2 = false)
    (h6 : strHas (strL "uc?id=") u2 = false)
    (h7 : strHas (strL "dropbox.com/s/") u3 = false)
    (h8 : strHas (strL "dropbox.com/sh/") u3 = false)
    (h9 : strHas (strL "dropbox.com/scl/fi/") u3 = false) :
    resolve_drive_redirect u1 = none ∧
    transform_google_drive_url u2 = u2 ∧
    transform_dropbox_url u3 = u3 := by
  refine ⟨?_, ?_, ?_⟩
  · unfold resolve_drive_redirect
    rw [h1]
    simp [h2, h3]
  · unfold transform_google_drive_url
    rw [h4]
    simp [h5, h6]
  · unfold transform_dropbox_url
    simp [h7, h8, h9]

/-- C6 witness: the three no-match behaviours at a concrete plain URL. -/
theorem resolver_no_match_behavior_witness :
    resolve_drive_redirect (strL "https://example.com/page") = none ∧
    transform_google_drive_url (strL "https://example.com/page") =
      strL "https://example.com/page" ∧
    transform_dropbox_url (strL "https://example.com/page") =
      strL "https://example.com/page" :=
  resolver_no_match_behavior _ _ _ (by decide) (by decide) (by decide)
    (by decide) (by decide) (by decide) (by decide) (by decide) (by decide)

theorem guiEnqueue_visited (d : Nat) (st : GuiCrawlState) (links : List Str) :
    (guiEnqueue d st links).visited_urls = st.visited_urls ∧
    (guiEnqueue d st links).fetchLog = st.fetchLog := by
  induction links generalizing st with
  | nil => exact ⟨rfl, rfl⟩
  | cons l rest ih =>
    unfold guiEnqueue at ih ⊢
    rw [List.foldl_cons]
    split
    · exact ih _
    · exact ih _

theorem gui_crawl_loop_stopped (site : GuiSite) (stop : Nat → Bool) (md fuel i : Nat)
    (st : GuiCrawlState) (h : stop i = true) :
    gui_crawl_loop site stop md fuel i st = st := by
  cases fuel with
  | zero => rfl
  | succ f => simp [gui_crawl_loop, h]

/-- C7 (amended).  The stop flag is read by the `while` condition of every
dequeue iteration, so once it is observed no further page is dequeued or
fetched (the state is returned as is); a crawl whose stop signal rises after
the first page is processed therefore ends with exactly one page crawled
(`pages_crawled = len(visited_urls) = 1`).  The remaining queue is abandoned
with whatever it still holds — the spec's "empty remaining queue" does not
hold (see the counterexample). -/
theorem gui_crawl_stop_prompt (site : GuiSite) (stop : Nat → Bool)
    (md fuel fuel' i : Nat) (st : GuiCrawlState) (seed : Str)
    (hstop : stop i = true)
    (h0 : stop 0 = false) (h1 : ∀ j, 1 ≤ j → stop j = true) (hf : 1 ≤ fuel) :
    gui_crawl_loop site stop md fuel' i st = st ∧
    (gui_crawl site stop md fuel seed).visited_urls = [seed] := by
  refine ⟨gui_crawl_loop_stopped site stop md fuel' i st hstop, ?_⟩
  obtain ⟨f, rfl⟩ : ∃ f, fuel = f + 1 := ⟨fuel - 1, by omega⟩
  show (gui_crawl_loop site stop md (f + 1) 0 ⟨[(seed, 0)], [], []⟩).visited_urls = [seed]
  rw [gui_crawl_loop]
  simp only [h0, List.cons_ne_nil, if_neg, if_false, Bool.false_eq_true]
  rw [gui_crawl_loop_stopped site stop md f 1 _ (h1 1 (le_refl 1))]
  simp only [gt_iff_lt, Nat.not_lt_zero, List.not_mem_nil, or_self, if_false]
  split
  · rfl
  · split
    · rfl
    · split
      · exact (guiEnqueue_visited _ _ _).1
      · rfl

/-- C7 witness: with the stop signal raised from iteration 1 on, the example
crawl visits exactly the seed. -/
theorem gui_crawl_stop_prompt_witness :
    gui_crawl_loop exSite stopAfterFirst 1 7 1 ⟨[(exLink, 1)], [exSeed], [exSeed]⟩ =
      ⟨[(exLink, 1)], [exSeed], [exSeed]⟩ ∧
    (gui_crawl exSite stopAfterFirst 1 5 exSeed).visited_urls = [exSeed] :=
  gui_crawl_stop_prompt exSite stopAfterFirst 1 5 7 1 ⟨[(exLink, 1)], [exSeed], [exSeed]⟩
    exSeed (by decide) (by decide) (fun j hj => by simp [stopAfterFirst]; omega) (by decide)

/-- C7 counterexample: on a seed page with one same-site link, a stop signal
raised after the first processed page leaves `pages_crawled = 1` but a
non-empty remaining queue, contradicting the claim's "empty remaining
queue". -/
theorem gui_crawl_stop_queue_not_empty :
    (gui_crawl exSite stopAfterFirst 1 5 exSeed).visited_urls.length = 1 ∧
    (gui_crawl exSite stopAfterFirst 1 5 exSeed).queue ≠ [] := by
  decide

/-- C9 counterexample: `is_valid_url` is not plain substring containment — an
absolute URL whose netloc contains the base host as a substring is still
rejected when the URL contains `'@'` (here in the userinfo), so the claim's
universal statement fails. -/
theorem is_valid_url_at_sign_rejected :
    strHas ((pyUrlparse (strL "https://example.com")).netloc)
      ((pyUrlparse (strL "https://user@notexample.com/")).netloc) = true ∧
    is_valid_url (strL "https://example.com") (strL "https://user@notexample.com/") = false := by
  decide

/-- C9 (amended).  `PDFScraper.is_valid_url` decides same-domain membership by
substring containment of the base netloc in the candidate netloc, and accepts
any URL with empty netloc — but only after its guards pass: the URL must not
start with `mailto:`/`tel:`/`sms:`/`fax:`, must parse, must have a non-empty
netloc-or-path, and must contain no `'@'` anywhere. -/
theorem is_valid_url_substring_containment (base url : Str)
    (hpre : ([strL "mailto:", strL "tel:", strL "sms:", strL "fax:"].any
              (fun p => leadEq p url)) = false)
    (hok : pyUrlsplitOk url = true)
    (hnp : ¬((pyUrlparse url).netloc = [] ∧ (pyUrlparse url).path = []))
    (hat : '@' ∉ url)
    (hdom : strHas ((pyUrlparse base).netloc) ((pyUrlparse url).netloc) = true ∨
            (pyUrlparse url).netloc = []) :
    is_valid_url base url = true := by
  unfold is_valid_url
  simp only [hpre, hok, Bool.not_true, if_false, if_neg hnp, if_neg hat, Bool.false_eq_true]
  rcases hdom with h | h <;> simp [h]

/-- C9 witness: a subdomain URL (base host a substring of its host) is
accepted. -/
theorem is_valid_url_substring_containment_witness :
    is_valid_url (strL "https://example.com") (strL "https://notexample.com/x") = true :=
  is_valid_url_substring_containment _ _ (by decide) (by decide) (by decide)
    (by decide) (Or.inl (by decide))

theorem updateCand_keys (m : List (Str × CandRec)) (u r p : Str) :
    (updateCand m u r p).map Prod.fst =
      if u ∈ m.map Prod.fst then m.map Prod.fst else m.map Prod.fst ++ [u] := by
  induction m with
  | nil => simp [updateCand]
  | cons q rest ih =>
    obtain ⟨a, c⟩ := q
    by_cases h : a = u
    · subst h
      simp [updateCand]
    · unfold updateCand
      simp only [if_neg h, List.map_cons, ih]
      have : (u ∈ a :: rest.map Prod.fst) ↔ u ∈ rest.map Prod.fst := by
        simp [List.mem_cons]
        intro he
        exact absurd he.symm h
      by_cases hm : u ∈ rest.map Prod.fst
      · simp [hm, this]
      · simp [hm, this]

theorem mem_updateCand {m : List (Str × CandRec)} {u r p k : Str} {rec : CandRec}
    (hnd : (m.map Prod.fst).Nodup) :
    (k, rec) ∈ updateCand m u r p ↔
      (k ≠ u ∧ (k, rec) ∈ m) ∨
      (k = u ∧ ∃ c, (u, c) ∈ m ∧ rec = ⟨setAdd r c.reasons, setAdd p c.found_on_pages⟩) ∨
      (k = u ∧ u ∉ m.map Prod.fst ∧ rec = ⟨[r], [p]⟩) := by
  induction m with
  | nil =>
    constructor
    · intro h
      have heq := List.mem_singleton.mp h
      have hk : k = u := congrArg Prod.fst heq
      have hr : rec = (⟨[r], [p]⟩ : CandRec) := congrArg Prod.snd heq
      exact Or.inr (Or.inr ⟨hk, by simp, hr⟩)
    · rintro (⟨-, hm⟩ | ⟨-, c, hc, -⟩ | ⟨rfl, -, rfl⟩)
      · simp at hm
      · simp at hc
      · exact List.mem_singleton.mpr rfl
  | cons q rest ih =>
    obtain ⟨a, c0⟩ := q
    rw [List.map_cons] at hnd
    have hnd2 := List.nodup_cons.mp hnd
    have hnd' : (rest.map Prod.fst).Nodup := hnd2.2
    have hanotin : a ∉ rest.map Prod.fst := hnd2.1
    by_cases h : a = u
    · rcases h with rfl
      unfold updateCand
      rw [if_pos rfl]
      constructor
      · intro hm
        rcases List.mem_cons.mp hm with heq | hmem
        · have hk : k = a := congrArg Prod.fst heq
          have hr := congrArg Prod.snd heq
          exact Or.inr (Or.inl ⟨hk, c0, List.mem_cons_self _ _, hr⟩)
        · have hka : k ≠ a := by
            rintro rfl
            exact hanotin (List.mem_map_of_mem Prod.fst hmem)
          exact Or.inl ⟨hka, List.mem_cons_of_mem _ hmem⟩
      · rintro (⟨hka, hm⟩ | ⟨rfl, c, hc, hr⟩ | ⟨rfl, hnot, -⟩)
        · rcases List.mem_cons.mp hm with heq | hmem
          · exact absurd (congrArg Prod.fst heq) hka
          · exact List.mem_cons_of_mem _ hmem
        · rcases List.mem_cons.mp hc with heq | hmem
          · have : c = c0 := congrArg Prod.snd heq
            rcases this with rfl
            rcases hr with rfl
            exact List.mem_cons_self _ _
          · exact absurd (List.mem_map_of_mem Prod.fst hmem) hanotin
        · exact absurd (by simp : k ∈ ((k, c0) :: rest).map Prod.fst) hnot
    · unfold updateCand
      rw [if_neg h]
      constructor
      · intro hm
        rcases List.mem_cons.mp hm with heq | hmem
        · have hk : k = a := congrArg Prod.fst heq
          have hku : k ≠ u := hk ▸ h
          exact Or.inl ⟨hku, List.mem_cons.mpr (Or.inl heq)⟩
        · rcases (ih hnd').mp hmem with ⟨hku, hmm⟩ | ⟨hk, c, hc, hr⟩ | ⟨hk, hnot, hr⟩
          · exact Or.inl ⟨hku, List.mem_cons_of_mem _ hmm⟩
          · exact Or.inr (Or.inl ⟨hk, c, List.mem_cons_of_mem _ hc, hr⟩)
          · refine Or.inr (Or.inr ⟨hk, ?_, hr⟩)
            intro hmem2
            rw [List.map_cons] at hmem2
            rcases List.mem_cons.mp hmem2 with he | he
            · exact h he.symm
            · exact hnot he
      · rintro (⟨hku, hm⟩ | ⟨rfl, c, hc, hr⟩ | ⟨rfl, hnot, hr⟩)
        · rcases List.mem_cons.mp hm with heq | hmem
          · exact List.mem_cons.mpr (Or.inl heq)
          · exact List.mem_cons_of_mem _ ((ih hnd').mpr (Or.inl ⟨hku, hmem⟩))
        · rcases List.mem_cons.mp hc with heq | hmem
          · exact absurd (congrArg Prod.fst heq).symm h
          · exact List.mem_cons_of_mem _ ((ih hnd').mpr (Or.inr (Or.inl ⟨rfl, c, hmem, hr⟩)))
        · have hnot' : k ∉ rest.map Prod.fst := by
            intro hmm
            exact hnot (by simp [hmm])
          exact List.mem_cons_of_mem _ ((ih hnd').mpr (Or.inr (Or.inr ⟨rfl, hnot', hr⟩)))

theorem sightingMatches_append {past : List Sighting} {e : Sighting} {k x : Str}
    {f : Sighting → Str} :
    SightingMatches (past ++ [e]) k f x ↔
      SightingMatches past k f x ∨
      (normalize e.url = k ∧ looks_like_pdf_url k = true ∧ f e = x) := by
  unfold SightingMatches
  constructor
  · rintro ⟨e', he', h1, h2, h3⟩
    rcases List.mem_append.mp he' with hm | hm
    · exact Or.inl ⟨e', hm, h1, h2, h3⟩
    · rcases List.mem_singleton.mp hm with rfl
      exact Or.inr ⟨h1, h2, h3⟩
  · rintro (⟨e', hm, h1, h2, h3⟩ | ⟨h1, h2, h3⟩)
    · exact ⟨e', List.mem_append.mpr (Or.inl hm), h1, h2, h3⟩
    · exact ⟨e, List.mem_append.mpr (Or.inr (List.mem_singleton.mpr rfl)), h1, h2, h3⟩

theorem candInv_step {past : List Sighting} {m : List (Str × CandRec)} (e : Sighting)
    (h : CandInv past m) : CandInv (past ++ [e]) (collectStep m e) := by
  obtain ⟨hnd, hkeys, hrec⟩ := h
  unfold collectStep
  by_cases hl : looks_like_pdf_url (normalize e.url) = true
  · simp only [hl, if_true]
    refine ⟨?_, ?_, ?_⟩
    · rw [updateCand_keys]
      split
      · exact hnd
      · rename_i hnew
        exact List.Nodup.append hnd (List.nodup_singleton _)
          (by simpa [List.disjoint_singleton] using hnew)
    · intro k
      rw [updateCand_keys]
      have base : k ∈ m.map Prod.fst ∨ k = normalize e.url ↔
          (∃ e', e' ∈ past ++ [e] ∧ normalize e'.url = k ∧ looks_like_pdf_url k = true) := by
        constructor
        · rintro (hk | rfl)
          · obtain ⟨e', he', h1, h2⟩ := (hkeys k).mp hk
            exact ⟨e', List.mem_append.mpr (Or.inl he'), h1, h2⟩
          · exact ⟨e, List.mem_append.mpr (Or.inr (List.mem_singleton.mpr rfl)), rfl, hl⟩
        · rintro ⟨e', he', h1, h2⟩
          rcases List.mem_append.mp he' with hm | hm
          · exact Or.inl ((hkeys k).mpr ⟨e', hm, h1, h2⟩)
          · rcases List.mem_singleton.mp hm with rfl
            exact Or.inr h1.symm
      split
      · rename_i hin
        rw [← base]
        constructor
        · exact fun hk => Or.inl hk
        · rintro (hk | rfl)
          exacts [hk, hin]
      · rw [← base]
        simp [List.mem_append, List.mem_singleton, eq_comm]
    · intro k rec hmem
      rw [mem_updateCand hnd] at hmem
      rcases hmem with ⟨hku, hmem⟩ | ⟨rfl, c, hc, rfl⟩ | ⟨rfl, hnot, rfl⟩
      · obtain ⟨hne, hiff1, hiff2⟩ := hrec k rec hmem
        refine ⟨hne, ?_, ?_⟩
        · intro x
          rw [hiff1 x, sightingMatches_append]
          simp only [iff_self_or]
          rintro ⟨h1, -, -⟩
          exact absurd h1.symm hku
        · intro x
          rw [hiff2 x, sightingMatches_append]
          simp only [iff_self_or]
          rintro ⟨h1, -, -⟩
          exact absurd h1.symm hku
      · obtain ⟨hne, hiff1, hiff2⟩ := hrec _ c hc
        refine ⟨setAdd_ne_nil _ _, ?_, ?_⟩
        · intro x
          rw [mem_setAdd, hiff1 x, sightingMatches_append]
          constructor
          · rintro (rfl | hm)
            · exact Or.inr ⟨rfl, hl, rfl⟩
            · exact Or.inl hm
          · rintro (hm | ⟨-, -, rfl⟩)
            · exact Or.inr hm
            · exact Or.inl rfl
        · intro x
          rw [mem_setAdd, hiff2 x, sightingMatches_append]
          constructor
          · rintro (rfl | hm)
            · exact Or.inr ⟨rfl, hl, rfl⟩
            · exact Or.inl hm
          · rintro (hm | ⟨-, -, rfl⟩)
            · exact Or.inr hm
            · exact Or.inl rfl
      · have hnopast : ∀ f : Sighting → Str, ∀ x,
            ¬ SightingMatches past (normalize e.url) f x := by
          rintro f x ⟨e', he', h1, h2, -⟩
          exact hnot ((hkeys _).mpr ⟨e', he', h1, h2⟩)
        refine ⟨by simp, ?_, ?_⟩
        · intro x
          rw [sightingMatches_append]
          simp only [List.mem_singleton]
          constructor
          · rintro rfl
            exact Or.inr (by simp [hl])
          · rintro (hm | ⟨-, -, rfl⟩)
            · exact absurd hm (hnopast _ x)
            · rfl
        · intro x
          rw [sightingMatches_append]
          simp only [List.mem_singleton]
          constructor
          · rintro rfl
            exact Or.inr (by simp [hl])
          · rintro (hm | ⟨-, -, rfl⟩)
            · exact absurd hm (hnopast _ x)
            · rfl
  · simp only [hl, if_false, Bool.false_eq_true]
    have hstep : ∀ (f : Sighting → Str) k x, looks_like_pdf_url k = true →
        (SightingMatches (past ++ [e]) k f x ↔ SightingMatches past k f x) := by
      intro f k x hkk
      rw [sightingMatches_append]
      simp only [or_iff_left_iff_imp]
      rintro ⟨rfl, h2, -⟩
      exact absurd h2 hl
    refine ⟨hnd, ?_, ?_⟩
    · intro k
      rw [hkeys k]
      constructor
      · rintro ⟨e', he', h1, h2⟩
        exact ⟨e', List.mem_append.mpr (Or.inl he'), h1, h2⟩
      · rintro ⟨e', he', h1, h2⟩
        rcases List.mem_append.mp he' with hm | hm
        · exact ⟨e', hm, h1, h2⟩
        · rcases List.mem_singleton.mp hm with rfl
          exact absurd h2 (h1 ▸ hl)
    · intro k rec hmem
      obtain ⟨hne, hiff1, hiff2⟩ := hrec k rec hmem
      have hlk : looks_like_pdf_url k = true := by
        obtain ⟨e', -, h1, h2⟩ := (hkeys k).mp (List.mem_map_of_mem Prod.fst hmem)
        exact h2
      exact ⟨hne, fun x => (hiff1 x).trans (hstep _ k x hlk).symm,
             fun x => (hiff2 x).trans (hstep _ k x hlk).symm⟩

theorem candInv_fold (evs : List Sighting) :
    ∀ (past : List Sighting) (m : List (Str × CandRec)), CandInv past m →
      CandInv (past ++ evs) (evs.foldl collectStep m) := by
  induction evs with
  | nil => intro past m h; simpa using h
  | cons e rest ih =>
    intro past m h
    have h1 := candInv_step e h
    have h2 := ih (past ++ [e]) (collectStep m e) h1
    rw [List.foldl_cons]
    simpa using h2

/-- C1.  The crawl phase keeps exactly one record per normalized URL: the key
set of `candidates_seen` is duplicate-free, a key exists iff some sighting of
a document-looking URL normalized to it, and every record's `reasons` and
`found_on_pages` are exactly the unions over all its sightings — with
`reasons` never empty. -/
theorem candidates_seen_merged (evs : List Sighting) (k : Str) (rec : CandRec)
    (hmem : (k, rec) ∈ candidates_seen evs) :
    ((candidates_seen evs).map Prod.fst).Nodup ∧
    (∀ k', k' ∈ (candidates_seen evs).map Prod.fst ↔
      ∃ e, e ∈ evs ∧ normalize e.url = k' ∧ looks_like_pdf_url k' = true) ∧
    rec.reasons ≠ [] ∧
    (∀ x, x ∈ rec.reasons ↔ SightingMatches evs k Sighting.reason x) ∧
    (∀ x, x ∈ rec.found_on_pages ↔ SightingMatches evs k Sighting.page x) := by
  have hbase : CandInv [] [] := by
    refine ⟨List.nodup_nil, ?_, ?_⟩
    · intro k'; simp
    · intro k' rec' h; simp at h
  have h := candInv_fold evs [] [] hbase
  rw [List.nil_append] at h
  obtain ⟨hnd, hkeys, hrec⟩ := h
  obtain ⟨hne, hiff1, hiff2⟩ := hrec k rec hmem
  exact ⟨hnd, hkeys, hne, hiff1, hiff2⟩

/-- C1 witness: two sightings of the same PDF URL (one with a fragment) via
different detection paths on different pages merge into one record carrying
both reasons and both pages. -/
theorem candidates_seen_merged_witness :
    ((candidates_seen
        [⟨strL "anchor", strL "https://a.test/x.pdf#sec", strL "https://a.test/p1"⟩,
         ⟨strL "inline", strL "https://a.test/x.pdf", strL "https://a.test/p2"⟩]).map
        Prod.fst).Nodup ∧
    (∀ k', k' ∈ (candidates_seen
        [⟨strL "anchor", strL "https://a.test/x.pdf#sec", strL "https://a.test/p1"⟩,
         ⟨strL "inline", strL "https://a.test/x.pdf", strL "https://a.test/p2"⟩]).map
        Prod.fst ↔
      ∃ e, e ∈ [(⟨strL "anchor", strL "https://a.test/x.pdf#sec", strL "https://a.test/p1"⟩ : Sighting),
                ⟨strL "inline", strL "https://a.test/x.pdf", strL "https://a.test/p2"⟩] ∧
        normalize e.url = k' ∧ looks_like_pdf_url k' = true) ∧
    (⟨[strL "anchor", strL "inline"], [strL "https://a.test/p1", strL "https://a.test/p2"]⟩ :
        CandRec).reasons ≠ [] ∧
    (∀ x, x ∈ (⟨[strL "anchor", strL "inline"],
                [strL "https://a.test/p1", strL "https://a.test/p2"]⟩ : CandRec).reasons ↔
      SightingMatches
        [⟨strL "anchor", strL "https://a.test/x.pdf#sec", strL "https://a.test/p1"⟩,
         ⟨strL "inline", strL "https://a.test/x.pdf", strL "https://a.test/p2"⟩]
        (strL "https://a.test/x.pdf") Sighting.reason x) ∧
    (∀ x, x ∈ (⟨[strL "anchor", strL "inline"],
                [strL "https://a.test/p1", strL "https://a.test/p2"]⟩ : CandRec).found_on_pages ↔
      SightingMatches
        [⟨strL "anchor", strL "https://a.test/x.pdf#sec", strL "https://a.test/p1"⟩,
         ⟨strL "inline", strL "https://a.test/x.pdf", strL "https://a.test/p2"⟩]
        (strL "https://a.test/x.pdf") Sighting.page x) :=
  candidates_seen_merged
    [⟨strL "anchor", strL "https://a.test/x.pdf#sec", strL "https://a.test/p1"⟩,
     ⟨strL "inline", strL "https://a.test/x.pdf", strL "https://a.test/p2"⟩]
    (strL "https://a.test/x.pdf")
    ⟨[strL "anchor", strL "inline"], [strL "https://a.test/p1", strL "https://a.test/p2"]⟩
    (by decide)

end PdfScrape

namespace PdfScrape

theorem schemeSplit_decomp (u : Str) : ∃ a, u = a ++ (schemeSplit u).2 := by
  unfold schemeSplit
  cases hsp : splitFirst ':' u with
  | none => exact ⟨[], rfl⟩
  | some ab =>
    obtain ⟨pre, post⟩ := ab
    obtain ⟨heq, -⟩ := splitFirst_eq_some hsp
    show ∃ a, u = a ++ (if schemeOk pre then (pre.map lowerAscii, post) else ([], u)).2
    by_cases hok : schemeOk pre = true
    · rw [if_pos hok]
      refine ⟨pre ++ [':'], ?_⟩
      rw [heq]
      simp
    · rw [if_neg hok]
      exact ⟨[], rfl⟩

theorem splitOnOpt_spec (ch : Char) (s : Str) :
    (s = (splitOnOpt ch s).1 ++ ch :: (splitOnOpt ch s).2 ∨
      (s = (splitOnOpt ch s).1 ∧ (splitOnOpt ch s).2 = [])) ∧
    ch ∉ (splitOnOpt ch s).1 := by
  unfold splitOnOpt
  cases hsp : splitFirst ch s with
  | none => exact ⟨Or.inr ⟨rfl, rfl⟩, splitFirst_eq_none hsp⟩
  | some ab =>
    obtain ⟨a, b⟩ := ab
    obtain ⟨heq, hnm⟩ := splitFirst_eq_some hsp
    exact ⟨Or.inl heq, hnm⟩

theorem pdfExtAt_cons (c1 c2 c3 c4 : Char) (b : Str)
    (h1 : lowerAscii c1 = '.') (h2 : lowerAscii c2 = 'p')
    (h3 : lowerAscii c3 = 'd') (h4 : lowerAscii c4 = 'f')
    (hb : b = [] ∨ b.headD ' ' = '?' ∨ b.headD ' ' = '#') :
    pdfExtAt (c1 :: c2 :: c3 :: c4 :: b) = true := by
  simp only [pdfExtAt, h1, h2, h3, h4, beq_self_eq_true, Bool.and_eq_true, true_and]
  rcases hb with rfl | h | h
  · simp
  · rw [List.headD_eq_head?_getD] at h
    simp [h]
  · rw [List.headD_eq_head?_getD] at h
    simp [h]

theorem pdfExtSearch_of_decomp (a s b : Str)
    (hs : strEndsWith (s.map lowerAscii) (strL ".pdf") = true)
    (hb : b = [] ∨ b.headD ' ' = '?' ∨ b.headD ' ' = '#') :
    pdfExtSearch (a ++ s ++ b) = true := by
  obtain ⟨t, ht⟩ := strEndsWith_iff.mp hs
  obtain ⟨s1, s2, rfl, -, hmap2⟩ := List.map_eq_append_iff.mp ht
  obtain ⟨c1, r1, rfl, hc1, hmap1⟩ := List.map_eq_cons_iff.mp hmap2
  obtain ⟨c2, r2, rfl, hc2, hmap0⟩ := List.map_eq_cons_iff.mp hmap1
  obtain ⟨c3, r3, rfl, hc3, hmapA⟩ := List.map_eq_cons_iff.mp hmap0
  obtain ⟨c4, r4, rfl, hc4, hmapB⟩ := List.map_eq_cons_iff.mp hmapA
  have hr4 : r4 = [] := List.map_eq_nil_iff.mp hmapB
  subst hr4
  have hAt : pdfExtAt (c1 :: c2 :: c3 :: c4 :: b) = true :=
    pdfExtAt_cons c1 c2 c3 c4 b hc1 hc2 hc3 hc4 hb
  have : a ++ (s1 ++ [c1, c2, c3, c4]) ++ b = (a ++ s1) ++ (c1 :: c2 :: c3 :: c4 :: b) := by
    simp
  rw [this]
  exact pdfExtSearch_append (a ++ s1) (pdfExtSearch_of_at hAt)

theorem pyUrlsplit_decomp (u : Str) (hu : pyRemoveUnsafe u = u) :
    (∃ a b, u = a ++ (pyUrlsplit u).path ++ b ∧
       (b = [] ∨ b.headD ' ' = '?' ∨ b.headD ' ' = '#')) ∧
    ((pyUrlsplit u).query ≠ [] →
       ∃ a b, u = a ++ (pyUrlsplit u).query ++ b ∧ (b = [] ∨ b.headD ' ' = '#')) := by
  have hdef : pyUrlsplit u =
      ⟨(schemeSplit u).1,
       (if (schemeSplit u).2.take 2 = ['/', '/'] then
          splitNetloc ((schemeSplit u).2.drop 2) else ([], (schemeSplit u).2)).1,
       (splitOnOpt '?' (splitOnOpt '#'
          (if (schemeSplit u).2.take 2 = ['/', '/'] then
            splitNetloc ((schemeSplit u).2.drop 2) else ([], (schemeSplit u).2)).2).1).1,
       (splitOnOpt '?' (splitOnOpt '#'
          (if (schemeSplit u).2.take 2 = ['/', '/'] then
            splitNetloc ((schemeSplit u).2.drop 2) else ([], (schemeSplit u).2)).2).1).2,
       (splitOnOpt '#'
          (if (schemeSplit u).2.take 2 = ['/', '/'] then
            splitNetloc ((schemeSplit u).2.drop 2) else ([], (schemeSplit u).2)).2).2⟩ := by
    unfold pyUrlsplit
    rw [hu]
  obtain ⟨a0, ha0⟩ := schemeSplit_decomp u
  set rest0 := (schemeSplit u).2 with hrest0
  have hnet : ∃ a1, rest0 = a1 ++
      (if rest0.take 2 = ['/', '/'] then splitNetloc (rest0.drop 2) else ([], rest0)).2 := by
    by_cases htake : rest0.take 2 = ['/', '/']
    · rw [if_pos htake]
      refine ⟨'/' :: '/' :: (rest0.drop 2).takeWhile (fun c => !netlocDelims.contains c), ?_⟩
      have h1 : rest0 = rest0.take 2 ++ rest0.drop 2 := (List.take_append_drop 2 rest0).symm
      have h2 : rest0.drop 2 =
          (rest0.drop 2).takeWhile (fun c => !netlocDelims.contains c) ++
          (rest0.drop 2).dropWhile (fun c => !netlocDelims.contains c) :=
        (List.takeWhile_append_dropWhile _ _).symm
      calc rest0 = rest0.take 2 ++ rest0.drop 2 := h1
        _ = ['/', '/'] ++ rest0.drop 2 := by rw [htake]
        _ = _ := by rw [h2]; simp [splitNetloc]
    · rw [if_neg htake]
      exact ⟨[], rfl⟩
  obtain ⟨a1, ha1⟩ := hnet
  set rest1 := (if rest0.take 2 = ['/', '/'] then
      splitNetloc (rest0.drop 2) else ([], rest0)).2 with hrest1
  obtain ⟨hfr, -⟩ := splitOnOpt_spec '#' rest1
  set x1 := (splitOnOpt '#' rest1).1 with hx1
  set frag := (splitOnOpt '#' rest1).2 with hfrag
  obtain ⟨hq, -⟩ := splitOnOpt_spec '?' x1
  set path := (splitOnOpt '?' x1).1 with hpath
  set query := (splitOnOpt '?' x1).2 with hquery
  have hupath : (pyUrlsplit u).path = path := by rw [hdef]
  have huquery : (pyUrlsplit u).query = query := by rw [hdef]
  constructor
  · rcases hq with hq | ⟨hq, -⟩
    · rcases hfr with hfr | ⟨hfr, -⟩
      · refine ⟨a0 ++ a1, '?' :: query ++ '#' :: frag, ?_, Or.inr (Or.inl rfl)⟩
        rw [hupath, ha0, ha1, hfr, hq]
        simp
      · refine ⟨a0 ++ a1, '?' :: query, ?_, Or.inr (Or.inl rfl)⟩
        rw [hupath, ha0, ha1, hfr, hq]
        simp
    · rcases hfr with hfr | ⟨hfr, -⟩
      · refine ⟨a0 ++ a1, '#' :: frag, ?_, Or.inr (Or.inr rfl)⟩
        rw [hupath, ha0, ha1, hfr, hq]
        simp
      · refine ⟨a0 ++ a1, [], ?_, Or.inl rfl⟩
        rw [hupath, ha0, ha1, hfr, hq]
        simp
  · intro hqne
    rw [huquery] at hqne
    rcases hq with hq | ⟨-, hq⟩
    · rcases hfr with hfr | ⟨hfr, -⟩
      · refine ⟨a0 ++ a1 ++ path ++ ['?'], '#' :: frag, ?_, Or.inr rfl⟩
        rw [huquery, ha0, ha1, hfr, hq]
        simp
      · refine ⟨a0 ++ a1 ++ path ++ ['?'], [], ?_, Or.inl rfl⟩
        rw [huquery, ha0, ha1, hfr, hq]
        simp
    · exact absurd hq hqne

/-- C2.  Any URL (tab/CR/LF-free, as every real URL is) whose `urlsplit` path
or query ends case-insensitively in `.pdf` is matched by `PDF_EXT_REGEX`
(the `.pdf` is necessarily followed by end-of-string, `'?'` or `'#'` in the
URL text), hence classified a candidate by `looks_like_pdf_url`, and phase 2
accepts it immediately under the `"extension"` tag — the code's counterpart
of the spec's high-priority extension reason. -/
theorem extension_match_classified (u found_on : Str) (t : Transport)
    (hu : pyRemoveUnsafe u = u)
    (h : strEndsWith ((pyUrlsplit u).path.map lowerAscii) (strL ".pdf") = true ∨
         strEndsWith ((pyUrlsplit u).query.map lowerAscii) (strL ".pdf") = true) :
    pdfExtSearch u = true ∧ looks_like_pdf_url u = true ∧
    verify_candidate t u found_on =
      (some ⟨u, strL "extension", u, firstSemiSpace found_on, none, []⟩, []) := by
  obtain ⟨hpdecomp, hqdecomp⟩ := pyUrlsplit_decomp u hu
  have hext : pdfExtSearch u = true := by
    rcases h with h | h
    · obtain ⟨a, b, heq, hb⟩ := hpdecomp
      rw [heq]
      exact pdfExtSearch_of_decomp a _ b h hb
    · have hqne : (pyUrlsplit u).query ≠ [] := by
        intro hnil
        rw [hnil] at h
        simp [strEndsWith, leadEq, strL] at h
      obtain ⟨a, b, heq, hb⟩ := hqdecomp hqne
      rw [heq]
      refine pdfExtSearch_of_decomp a _ b h ?_
      rcases hb with rfl | hb
      · exact Or.inl rfl
      · exact Or.inr (Or.inr hb)
  refine ⟨hext, ?_, ?_⟩
  · unfold looks_like_pdf_url
    simp [hext]
  · unfold verify_candidate
    simp [hext]

/-- C2 witness: the spec's example `https://site.test/report.PDF?x=1`
(uppercase extension, query present). -/
theorem extension_match_classified_witness :
    pdfExtSearch (strL "https://site.test/report.PDF?x=1") = true ∧
    looks_like_pdf_url (strL "https://site.test/report.PDF?x=1") = true ∧
    verify_candidate deadTransport (strL "https://site.test/report.PDF?x=1")
        (strL "https://site.test/") =
      (some ⟨strL "https://site.test/report.PDF?x=1", strL "extension",
             strL "https://site.test/report.PDF?x=1",
             firstSemiSpace (strL "https://site.test/"), none, []⟩, []) :=
  extension_match_classified (strL "https://site.test/report.PDF?x=1")
    (strL "https://site.test/") deadTransport (by decide) (Or.inl (by decide))

end PdfScrape

namespace PdfScrape

theorem pyRemoveUnsafe_eq_self {s : Str} (h : ∀ c ∈ s, safeChar c) :
    pyRemoveUnsafe s = s := by
  unfold pyRemoveUnsafe
  rw [List.filter_eq_self]
  intro c hc
  have := h c hc
  unfold safeChar at this
  simp only [Bool.not_eq_true', Bool.or_eq_false_iff, beq_eq_false_iff_ne]
  push_neg at this
  simp [this.1, this.2.1, this.2.2]

theorem safeChar_of_removeFixed {s : Str} (h : pyRemoveUnsafe s = s) :
    ∀ c ∈ s, safeChar c := by
  intro c hc
  rw [← h] at hc
  have := List.of_mem_filter hc
  unfold safeChar
  rintro (rfl | rfl | rfl) <;> simp at this

theorem schemeChars_explicit : schemeChars = ['a', 'b', 'c', 'd', 'e', 'f', 'g', 'h', 'i', 'j', 'k', 'l', 'm', 'n', 'o', 'p', 'q', 'r', 's', 't', 'u', 'v', 'w', 'x', 'y', 'z', 'A', 'B', 'C', 'D', 'E', 'F', 'G', 'H', 'I', 'J', 'K', 'L', 'M', 'N', 'O', 'P', 'Q', 'R', 'S', 'T', 'U', 'V', 'W', 'X', 'Y', 'Z', '0', '1', '2', '3', '4', '5', '6', '7', '8', '9', '+', '-', '.'] := by decide

theorem schemeChars_lower {c : Char} (h : schemeChars.contains c = true) :
    schemeChars.contains (lowerAscii c) = true ∧
    lowerAscii (lowerAscii c) = lowerAscii c ∧
    lowerAscii c ≠ ':' ∧ c ≠ ':' ∧ safeChar c ∧ safeChar (lowerAscii c) ∧
    (asciiAlpha c = true → asciiAlpha (lowerAscii c) = true) := by
  have hm : c ∈ schemeChars := by
    rw [← List.elem_iff]
    exact h
  rw [schemeChars_explicit] at hm
  simp only [List.mem_cons, List.mem_singleton, List.not_mem_nil, or_false] at hm
  rcases hm with rfl|rfl|rfl|rfl|rfl|rfl|rfl|rfl|rfl|rfl|rfl|rfl|rfl|rfl|rfl|rfl|rfl|rfl|rfl|rfl|rfl|rfl|rfl|rfl|rfl|rfl|rfl|rfl|rfl|rfl|rfl|rfl|rfl|rfl|rfl|rfl|rfl|rfl|rfl|rfl|rfl|rfl|rfl|rfl|rfl|rfl|rfl|rfl|rfl|rfl|rfl|rfl|rfl|rfl|rfl|rfl|rfl|rfl|rfl|rfl|rfl|rfl|rfl|rfl|rfl
  all_goals decide

end PdfScrape

namespace PdfScrape

theorem splitFirst_append_left (ch : Char) (a b : Str) (ha : ch ∉ a) :
    splitFirst ch (a ++ b) =
      match splitFirst ch b with
      | some (x, y) => some (a ++ x, y)
      | none => none := by
  induction a with
  | nil =>
    simp only [List.nil_append]
    cases splitFirst ch b with
    | none => rfl
    | some xy => obtain ⟨x, y⟩ := xy; rfl
  | cons c cs ih =>
    have hc : ¬(c = ch) := fun he => ha (he ▸ List.mem_cons_self c cs)
    have ha' : ch ∉ cs := fun hm => ha (List.mem_cons_of_mem c hm)
    have hstep : splitFirst ch (c :: (cs ++ b)) =
        match splitFirst ch (cs ++ b) with
        | some (a2, b2) => some (c :: a2, b2)
        | none => none := by
      show (if c = ch then some ([], cs ++ b)
            else match splitFirst ch (cs ++ b) with
              | some (a2, b2) => some (c :: a2, b2)
              | none => none) = _
      rw [if_neg hc]
    rw [List.cons_append, hstep, ih ha']
    cases splitFirst ch b with
    | none => rfl
    | some xy => obtain ⟨x, y⟩ := xy; rfl

theorem schemeSplit_extract (s rest : Str)
    (hok : schemeOk s = true) (hlow : s.map lowerAscii = s) (hcol : ':' ∉ s) :
    schemeSplit (s ++ ':' :: rest) = (s, rest) := by
  unfold schemeSplit
  rw [splitFirst_append_cons rest hcol]
  simp [hok, hlow]

theorem schemeSplit_head_fail (s : Str)
    (h : s = [] ∨ asciiAlpha (s.headD ' ') = false) :
    schemeSplit s = ([], s) := by
  unfold schemeSplit
  cases hsp : splitFirst ':' s with
  | none => rfl
  | some ab =>
    obtain ⟨pre, post⟩ := ab
    obtain ⟨heq, -⟩ := splitFirst_eq_some hsp
    have hfail : schemeOk pre = false := by
      unfold schemeOk
      rcases h with rfl | h
      · exact absurd heq (by simp)
      · cases pre with
        | nil => simp
        | cons c cs =>
          have hhd : s.headD ' ' = c := by rw [heq]; rfl
          rw [hhd] at h
          simp [h]
    simp [hfail]

theorem schemeSplit_fail_append (s t : Str) (h : schemeSplit s = ([], s)) :
    schemeSplit (s ++ '?' :: t) = ([], s ++ '?' :: t) := by
  unfold schemeSplit at h ⊢
  cases hsp : splitFirst ':' s with
  | none =>
    have hns : ':' ∉ s := splitFirst_eq_none hsp
    rw [splitFirst_append_left ':' s ('?' :: t) hns]
    show (match (match splitFirst ':' ('?' :: t) with
          | some (x, y) => some (s ++ x, y) | none => none) with
        | some (pre, post) =>
          if schemeOk pre = true then (pre.map lowerAscii, post) else ([], s ++ '?' :: t)
        | none => ([], s ++ '?' :: t)) = ([], s ++ '?' :: t)
    have h1 : splitFirst ':' ('?' :: t) =
        match splitFirst ':' t with
        | some (x, y) => some ('?' :: x, y)
        | none => none := by
      show (if '?' = ':' then some ([], t)
            else match splitFirst ':' t with
              | some (x, y) => some ('?' :: x, y)
              | none => none) = _
      rw [if_neg (by decide : ¬('?' = ':'))]
    rw [h1]
    cases splitFirst ':' t with
    | none => rfl
    | some xy =>
      obtain ⟨x, y⟩ := xy
      have hexist : ((s ++ '?' :: x).all (fun c => schemeChars.contains c)) = false := by
        rw [List.all_eq_false]
        exact ⟨'?', by simp, by decide⟩
      have hfail : schemeOk (s ++ '?' :: x) = false := by
        unfold schemeOk
        rw [hexist]
        simp
      simp [hfail]
  | some ab =>
    obtain ⟨pre0, post0⟩ := ab
    obtain ⟨heq, hna⟩ := splitFirst_eq_some hsp
    rw [hsp] at h
    have hred : (match some (pre0, post0) with
        | some (pre, post) =>
          if schemeOk pre = true then (List.map lowerAscii pre, post) else ([], s)
        | none => ([], s)) =
        if schemeOk pre0 = true then (List.map lowerAscii pre0, post0) else ([], s) := rfl
    rw [hred] at h
    have hok0 : schemeOk pre0 = false := by
      by_cases hok : schemeOk pre0 = true
      · rw [if_pos hok] at h
        have h1 := congrArg Prod.fst h
        simp only at h1
        rcases List.map_eq_nil_iff.mp h1 with rfl
        simp [schemeOk] at hok
      · exact Bool.eq_false_iff.mpr hok
    have hue : s ++ '?' :: t = pre0 ++ ':' :: (post0 ++ '?' :: t) := by
      rw [heq]
      simp
    rw [hue, splitFirst_append_cons _ hna]
    simp [hok0]

theorem schemeSplit_fail_of_prefix (u p rest : Str) (h : schemeSplit u = ([], u))
    (heq : u = p ++ rest) : schemeSplit p = ([], p) := by
  unfold schemeSplit at h ⊢
  cases hsp : splitFirst ':' p with
  | none => rfl
  | some ab =>
    obtain ⟨a, b⟩ := ab
    obtain ⟨hpe, hna⟩ := splitFirst_eq_some hsp
    have hue : u = a ++ ':' :: (b ++ rest) := by
      rw [heq, hpe]
      simp
    have hu2 : splitFirst ':' u = some (a, b ++ rest) := by
      rw [hue]
      exact splitFirst_append_cons _ hna
    rw [hu2] at h
    have hred : (match some (a, b ++ rest) with
        | some (pre, post) =>
          if schemeOk pre = true then (List.map lowerAscii pre, post) else ([], u)
        | none => ([], u)) =
        if schemeOk a = true then (List.map lowerAscii a, b ++ rest) else ([], u) := rfl
    rw [hred] at h
    by_cases hok : schemeOk a = true
    · rw [if_pos hok] at h
      have h1 := congrArg Prod.fst h
      simp only at h1
      rcases List.map_eq_nil_iff.mp h1 with rfl
      simp [schemeOk] at hok
    · simp [hok]

theorem takeWhile_dropWhile_append (p : Char → Bool) (a b : Str) (d : Char)
    (ha : ∀ c ∈ a, p c = true) (hb : b = [] ∨ p (b.headD d) = false) :
    (a ++ b).takeWhile p = a ∧ (a ++ b).dropWhile p = b := by
  induction a with
  | nil =>
    simp only [List.nil_append]
    rcases hb with rfl | hb
    · simp
    · cases b with
      | nil => simp
      | cons x xs =>
        have hx : p x = false := by simpa [List.headD] using hb
        constructor
        · simp [List.takeWhile_cons, hx]
        · simp [List.dropWhile_cons, hx]
  | cons c cs ih =>
    have hc : p c = true := ha c (List.mem_cons_self _ _)
    have ha' : ∀ x ∈ cs, p x = true := fun x hx => ha x (List.mem_cons_of_mem _ hx)
    obtain ⟨ih1, ih2⟩ := ih ha'
    constructor
    · simp [List.takeWhile_cons, hc, ih1]
    · simp [List.dropWhile_cons, hc, ih2]

theorem dropWhile_head_false (p : Char → Bool) (l : List Char) (d : Char) :
    l.dropWhile p = [] ∨ p ((l.dropWhile p).headD d) = false := by
  induction l with
  | nil => exact Or.inl rfl
  | cons c cs ih =>
    by_cases hc : p c = true
    · simpa [List.dropWhile_cons, hc] using ih
    · right
      rw [List.dropWhile_cons, if_neg hc]
      simpa [List.headD] using Bool.eq_false_iff.mpr hc

theorem headD_of_decomp {part rest s : Str} {d : Char}
    (h : s = part ++ rest) (hne : part ≠ []) : part.headD d = s.headD d := by
  cases part with
  | nil => exact absurd rfl hne
  | cons c cs => rw [h]; rfl

end PdfScrape

namespace PdfScrape

theorem schemeOk_parts {pre : Str} (hok : schemeOk pre = true) :
    pre ≠ [] ∧ asciiAlpha (pre.headD ' ') = true ∧ ∀ c ∈ pre, schemeChars.contains c = true := by
  unfold schemeOk at hok
  rw [Bool.and_eq_true, Bool.and_eq_true] at hok
  obtain ⟨⟨h1, h2⟩, h3⟩ := hok
  refine ⟨by simpa using h1, h2, ?_⟩
  intro c hc
  exact List.all_eq_true.mp h3 c hc

theorem schemeOk_map_lower {pre : Str} (hok : schemeOk pre = true) :
    schemeOk (pre.map lowerAscii) = true ∧
    (pre.map lowerAscii).map lowerAscii = pre.map lowerAscii ∧
    ':' ∉ pre.map lowerAscii ∧
    (∀ c ∈ pre.map lowerAscii, safeChar c) := by
  obtain ⟨hne, halpha, hall⟩ := schemeOk_parts hok
  refine ⟨?_, ?_, ?_, ?_⟩
  · unfold schemeOk
    rw [Bool.and_eq_true, Bool.and_eq_true]
    refine ⟨⟨by simpa using hne, ?_⟩, ?_⟩
    · cases pre with
      | nil => exact absurd rfl hne
      | cons c cs =>
        have hc := hall c (List.mem_cons_self _ _)
        exact (schemeChars_lower hc).2.2.2.2.2.2 halpha
    · rw [List.all_eq_true]
      intro c hc
      obtain ⟨c0, hc0, rfl⟩ := List.mem_map.mp hc
      exact (schemeChars_lower (hall c0 hc0)).1
  · rw [List.map_map]
    refine List.map_congr_left ?_
    intro c hc
    exact (schemeChars_lower (hall c hc)).2.1
  · intro hmem
    obtain ⟨c0, hc0, heq⟩ := List.mem_map.mp hmem
    exact (schemeChars_lower (hall c0 hc0)).2.2.1 heq
  · intro c hc
    obtain ⟨c0, hc0, rfl⟩ := List.mem_map.mp hc
    exact (schemeChars_lower (hall c0 hc0)).2.2.2.2.2.1

theorem schemeSplit_cases (v : Str) :
    ((schemeSplit v).1 = [] ∧ (schemeSplit v).2 = v ∧ schemeSplit v = ([], v)) ∨
    (∃ pre, schemeOk pre = true ∧ (schemeSplit v).1 = pre.map lowerAscii ∧
      v = pre ++ ':' :: (schemeSplit v).2) := by
  cases hsp : splitFirst ':' v with
  | none =>
    have hval : schemeSplit v = ([], v) := by
      unfold schemeSplit
      rw [hsp]
    rw [hval]
    exact Or.inl ⟨rfl, rfl, rfl⟩
  | some ab =>
    obtain ⟨pre, post⟩ := ab
    obtain ⟨heq, -⟩ := splitFirst_eq_some hsp
    by_cases hok : schemeOk pre = true
    · have hval : schemeSplit v = (pre.map lowerAscii, post) := by
        unfold schemeSplit
        rw [hsp]
        simp [hok]
      rw [hval]
      exact Or.inr ⟨pre, hok, rfl, heq⟩
    · have hval : schemeSplit v = ([], v) := by
        unfold schemeSplit
        rw [hsp]
        simp [hok]
      rw [hval]
      exact Or.inl ⟨rfl, rfl, rfl⟩


theorem pyUrlsplit_eq (u : Str) :
    pyUrlsplit u =
      ⟨(schemeSplit (pyRemoveUnsafe u)).1,
       (if (schemeSplit (pyRemoveUnsafe u)).2.take 2 = ['/', '/'] then
          splitNetloc ((schemeSplit (pyRemoveUnsafe u)).2.drop 2)
        else ([], (schemeSplit (pyRemoveUnsafe u)).2)).1,
       (splitOnOpt '?' (splitOnOpt '#'
          (if (schemeSplit (pyRemoveUnsafe u)).2.take 2 = ['/', '/'] then
            splitNetloc ((schemeSplit (pyRemoveUnsafe u)).2.drop 2)
          else ([], (schemeSplit (pyRemoveUnsafe u)).2)).2).1).1,
       (splitOnOpt '?' (splitOnOpt '#'
          (if (schemeSplit (pyRemoveUnsafe u)).2.take 2 = ['/', '/'] then
            splitNetloc ((schemeSplit (pyRemoveUnsafe u)).2.drop 2)
          else ([], (schemeSplit (pyRemoveUnsafe u)).2)).2).1).2,
       (splitOnOpt '#'
          (if (schemeSplit (pyRemoveUnsafe u)).2.take 2 = ['/', '/'] then
            splitNetloc ((schemeSplit (pyRemoveUnsafe u)).2.drop 2)
          else ([], (schemeSplit (pyRemoveUnsafe u)).2)).2).2⟩ := rfl

theorem splitStages_inv (v s rest0 n rest1 x1 frag path query : Str)
    (hvsafe : ∀ c ∈ v, safeChar c)
    (hsch : schemeSplit v = (s, rest0))
    (hnp : (if rest0.take 2 = ['/', '/'] then splitNetloc (rest0.drop 2)
            else ([], rest0)) = (n, rest1))
    (hfp : splitOnOpt '#' rest1 = (x1, frag))
    (hqp : splitOnOpt '?' x1 = (path, query)) :
    (∀ c ∈ n, netlocDelims.contains c = false) ∧
    ('#' ∉ path ∧ '?' ∉ path) ∧
    '#' ∉ query ∧
    (s = [] ∨ (schemeOk s = true ∧ s.map lowerAscii = s ∧ ':' ∉ s)) ∧
    (n ≠ [] → path = [] ∨ path.take 1 = ['/']) ∧
    (s = [] → schemeSplit path = ([], path)) ∧
    (∀ c ∈ s, safeChar c) ∧ (∀ c ∈ n, safeChar c) ∧
    (∀ c ∈ path, safeChar c) ∧ (∀ c ∈ query, safeChar c) := by
  have hA : (s = [] ∨ (schemeOk s = true ∧ s.map lowerAscii = s ∧ ':' ∉ s)) ∧
      (∀ c ∈ s, safeChar c) ∧ (∀ c ∈ rest0, safeChar c) ∧
      (s = [] → schemeSplit v = ([], v) ∧ rest0 = v) := by
    rcases schemeSplit_cases v with ⟨h1, h2, hall⟩ | ⟨pre, hok, h1, h2⟩
    · rw [hsch] at h1 h2
      simp only at h1 h2
      refine ⟨Or.inl h1, ?_, ?_, fun _ => ⟨hall, h2⟩⟩
      · intro c hc; rw [h1] at hc; simp at hc
      · intro c hc; rw [h2] at hc; exact hvsafe c hc
    · rw [hsch] at h1 h2
      simp only at h1 h2
      obtain ⟨hok2, hlow, hcol, hsafe⟩ := schemeOk_map_lower hok
      rw [← h1] at hok2 hlow hcol hsafe
      refine ⟨Or.inr ⟨hok2, hlow, hcol⟩, hsafe, ?_, ?_⟩
      · intro c hc
        refine hvsafe c ?_
        rw [h2]
        simp [hc]
      · intro hse
        rw [hse] at h1
        rcases List.map_eq_nil_iff.mp h1.symm with rfl
        exact absurd hok (by simp [schemeOk])
  have hB : ((rest1 = [] ∨ netlocDelims.contains (rest1.headD ' ') = true) ∨
      (n = [] ∧ rest1 = rest0)) ∧
      (∀ c ∈ n, netlocDelims.contains c = false) ∧
      (∀ c ∈ n, safeChar c) ∧ (∀ c ∈ rest1, safeChar c) := by
    by_cases htake : rest0.take 2 = ['/', '/']
    · rw [if_pos htake] at hnp
      unfold splitNetloc at hnp
      have hn : n = (rest0.drop 2).takeWhile (fun c => !netlocDelims.contains c) :=
        (congrArg Prod.fst hnp).symm
      have hr1 : rest1 = (rest0.drop 2).dropWhile (fun c => !netlocDelims.contains c) :=
        (congrArg Prod.snd hnp).symm
      refine ⟨Or.inl ?_, ?_, ?_, ?_⟩
      · rw [hr1]
        rcases dropWhile_head_false (fun c => !netlocDelims.contains c)
            (rest0.drop 2) ' ' with h | h
        · exact Or.inl h
        · right
          simpa using h
      · intro c hc
        rw [hn] at hc
        have := List.mem_takeWhile_imp hc
        simpa using this
      · intro c hc
        rw [hn] at hc
        have hsub : c ∈ rest0.drop 2 := (List.takeWhile_sublist _).mem hc
        exact hA.2.2.1 c ((List.drop_sublist 2 rest0).mem hsub)
      · intro c hc
        rw [hr1] at hc
        have hsub : c ∈ rest0.drop 2 := (List.dropWhile_sublist _).mem hc
        exact hA.2.2.1 c ((List.drop_sublist 2 rest0).mem hsub)
    · rw [if_neg htake] at hnp
      have hn : n = [] := (congrArg Prod.fst hnp).symm
      have hr1 : rest1 = rest0 := (congrArg Prod.snd hnp).symm
      refine ⟨Or.inr ⟨hn, hr1⟩, ?_, ?_, ?_⟩
      · intro c hc; rw [hn] at hc; simp at hc
      · intro c hc; rw [hn] at hc; simp at hc
      · intro c hc; rw [hr1] at hc; exact hA.2.2.1 c hc
  obtain ⟨hfdec, hfnot⟩ := splitOnOpt_spec '#' rest1
  rw [hfp] at hfdec hfnot
  simp only at hfdec hfnot
  obtain ⟨hqdec, hqnot⟩ := splitOnOpt_spec '?' x1
  rw [hqp] at hqdec hqnot
  simp only at hqdec hqnot
  have hx1sub : ∀ c ∈ x1, c ∈ rest1 := by
    intro c hc
    rcases hfdec with hfd | ⟨hfd, -⟩
    · rw [hfd]; simp [hc]
    · rw [hfd]; exact hc
  have hpathsub : ∀ c ∈ path, c ∈ x1 := by
    intro c hc
    rcases hqdec with hqd | ⟨hqd, -⟩
    · rw [hqd]; simp [hc]
    · rw [hqd]; exact hc
  have hquerysub : ∀ c ∈ query, c ∈ x1 := by
    intro c hc
    rcases hqdec with hqd | ⟨hqd, hqe⟩
    · rw [hqd]; simp [hc]
    · rw [hqe] at hc; simp at hc
  have hpf : '#' ∉ path := fun hm => hfnot (hpathsub _ hm)
  have hpq : '?' ∉ path := hqnot
  have hqf : '#' ∉ query := fun hm => hfnot (hquerysub _ hm)
  have hE : ∃ z, rest1 = path ++ z := by
    rcases hfdec with hfd | ⟨hfd, -⟩ <;> rcases hqdec with hqd | ⟨hqd, -⟩
    · exact ⟨'?' :: query ++ '#' :: frag, by rw [hfd, hqd]; simp⟩
    · exact ⟨'#' :: frag, by rw [hfd, hqd]⟩
    · exact ⟨'?' :: query, by rw [hfd, hqd]⟩
    · exact ⟨[], by rw [hfd, hqd]; simp⟩
  have hhead : path ≠ [] → path.headD ' ' = rest1.headD ' ' := by
    intro hne
    obtain ⟨z, hz⟩ := hE
    exact headD_of_decomp hz hne
  have hslash : (rest1 = [] ∨ netlocDelims.contains (rest1.headD ' ') = true) →
      path = [] ∨ path.take 1 = ['/'] := by
    rintro (hre | hre)
    · left
      obtain ⟨z, hz⟩ := hE
      rw [hre] at hz
      exact (List.append_eq_nil.mp hz.symm).1
    · by_cases hne : path = []
      · exact Or.inl hne
      · right
        have hh2 : path.headD ' ' = rest1.headD ' ' := hhead hne
        cases path with
        | nil => exact absurd rfl hne
        | cons c cs =>
          have hc2 : c = rest1.headD ' ' := by simpa [List.headD] using hh2
          have hmem : rest1.headD ' ' ∈ netlocDelims := by
            rw [← List.elem_iff]
            exact hre
          unfold netlocDelims at hmem
          simp only [List.mem_cons, List.not_mem_nil, or_false] at hmem
          rcases hmem with he | he | he
          · have hcv : c = '/' := by rw [hc2, he]
            rw [hcv]
            rfl
          · exfalso
            refine hpq ?_
            have hcv : c = '?' := by rw [hc2, he]
            rw [← hcv]
            exact List.mem_cons_self _ _
          · exfalso
            refine hpf ?_
            have hcv : c = '#' := by rw [hc2, he]
            rw [← hcv]
            exact List.mem_cons_self _ _
  refine ⟨hB.2.1, ⟨hpf, hpq⟩, hqf, hA.1, ?_, ?_, hA.2.1, hB.2.2.1,
          fun c hc => hB.2.2.2 c (hx1sub c (hpathsub c hc)),
          fun c hc => hB.2.2.2 c (hx1sub c (hquerysub c hc))⟩
  · intro hn
    rcases hB.1 with hre | ⟨hn0, -⟩
    · exact hslash hre
    · exact absurd hn0 hn
  · intro hse
    obtain ⟨hfail, hr0v⟩ := hA.2.2.2 hse
    rcases hB.1 with hre | ⟨-, hr1⟩
    · rcases hslash hre with hp0 | hp1
      · rw [hp0]
        rfl
      · refine schemeSplit_head_fail path (Or.inr ?_)
        cases path with
        | nil => simp at hp1
        | cons c cs =>
          have hcv : c = '/' := by simpa using hp1
          rw [show (c :: cs).headD ' ' = c from rfl, hcv]
          decide
    · obtain ⟨z, hz⟩ := hE
      refine schemeSplit_fail_of_prefix v path z hfail ?_
      rw [← hz, hr1, hr0v]

end PdfScrape

namespace PdfScrape

theorem safe_append {a b : Str} (ha : ∀ c ∈ a, safeChar c) (hb : ∀ c ∈ b, safeChar c) :
    ∀ c ∈ a ++ b, safeChar c := by
  intro c hc
  rcases List.mem_append.mp hc with h | h
  exacts [ha c h, hb c h]

theorem safe_cons {c0 : Char} {b : Str} (h0 : safeChar c0) (hb : ∀ c ∈ b, safeChar c) :
    ∀ c ∈ c0 :: b, safeChar c := by
  intro c hc
  rcases List.mem_cons.mp hc with rfl | h
  exacts [h0, hb c h]

/-- The post-scheme tail `p ++ optQ` used by both canonical forms. -/
theorem splitCore_tail (p q : Str) (hpf : '#' ∉ p) (hpq : '?' ∉ p) (hqf : '#' ∉ q) :
    splitOnOpt '#' (p ++ (if q = [] then [] else '?' :: q)) =
      (p ++ (if q = [] then [] else '?' :: q), []) ∧
    splitOnOpt '?' (p ++ (if q = [] then [] else '?' :: q)) = (p, q) := by
  by_cases hq : q = []
  · rw [if_pos hq]
    constructor
    · unfold splitOnOpt
      rw [splitFirst_not_mem (by simp [hpf])]
    · unfold splitOnOpt
      rw [splitFirst_not_mem (by simp [hpq])]
      simp [hq]
  · rw [if_neg hq]
    constructor
    · unfold splitOnOpt
      rw [splitFirst_not_mem ?_]
      intro hm
      rcases List.mem_append.mp hm with h | h
      · exact hpf h
      · rcases List.mem_cons.mp h with he | h2
        · exact absurd he (by decide)
        · exact hqf h2
    · unfold splitOnOpt
      rw [splitFirst_append_cons q hpq]

theorem pyUrlsplit_form_auth (s n p q : Str)
    (hs : s = [] ∨ (schemeOk s = true ∧ s.map lowerAscii = s ∧ ':' ∉ s))
    (hn : ∀ c ∈ n, netlocDelims.contains c = false)
    (hpf : '#' ∉ p) (hpq : '?' ∉ p) (hqf : '#' ∉ q)
    (hp : p = [] ∨ p.take 1 = ['/'])
    (hsafeS : ∀ c ∈ s, safeChar c) (hsafeN : ∀ c ∈ n, safeChar c)
    (hsafeP : ∀ c ∈ p, safeChar c) (hsafeQ : ∀ c ∈ q, safeChar c) :
    pyUrlsplit ((if s = [] then [] else s ++ [':']) ++ ('/' :: '/' :: (n ++ p)) ++
      (if q = [] then [] else '?' :: q)) = ⟨s, n, p, q, []⟩ := by
  set optQ : Str := if q = [] then [] else '?' :: q with hoptQ
  set w : Str := (if s = [] then [] else s ++ [':']) ++ ('/' :: '/' :: (n ++ p)) ++ optQ
    with hw
  have hsafeQ2 : ∀ c ∈ optQ, safeChar c := by
    rw [hoptQ]
    split
    · intro c hc; simp at hc
    · exact safe_cons (by decide) hsafeQ
  have hsafeW : ∀ c ∈ w, safeChar c := by
    rw [hw]
    refine safe_append (safe_append ?_ ?_) hsafeQ2
    · split
      · intro c hc; simp at hc
      · exact safe_append hsafeS (safe_cons (by decide) (by intro c hc; simp at hc))
    · exact safe_cons (by decide) (safe_cons (by decide) (safe_append hsafeN hsafeP))
  have h0 : pyRemoveUnsafe w = w := pyRemoveUnsafe_eq_self hsafeW
  have hrest : w = (if s = [] then [] else s ++ [':']) ++ ('/' :: '/' :: (n ++ p) ++ optQ) := by
    rw [hw]
    simp
  have h1 : schemeSplit w = (s, '/' :: '/' :: (n ++ p) ++ optQ) := by
    rcases hs with rfl | ⟨hok, hlow, hcol⟩
    · rw [hrest]
      simp only [if_pos rfl, List.nil_append]
      exact schemeSplit_head_fail _ (Or.inr (by rfl))
    · have hsne : s ≠ [] := by
        intro hn0
        rw [hn0] at hok
        simp [schemeOk] at hok
      rw [hrest, if_neg hsne]
      have : s ++ [':'] ++ ('/' :: '/' :: (n ++ p) ++ optQ) =
          s ++ ':' :: ('/' :: '/' :: (n ++ p) ++ optQ) := by simp
      rw [this]
      exact schemeSplit_extract s _ hok hlow hcol
  have htail := splitCore_tail p q hpf hpq hqf
  have h2 : ('/' :: '/' :: (n ++ p) ++ optQ).take 2 = ['/', '/'] := rfl
  have h3 : splitNetloc (('/' :: '/' :: (n ++ p) ++ optQ).drop 2) = (n, p ++ optQ) := by
    have hdrop : ('/' :: '/' :: (n ++ p) ++ optQ).drop 2 = n ++ (p ++ optQ) := by simp
    rw [hdrop]
    unfold splitNetloc
    have hb : p ++ optQ = [] ∨ (fun c => !netlocDelims.contains c) ((p ++ optQ).headD ' ') = false := by
      rcases hp with rfl | hp1
      · rw [hoptQ]
        split
        · exact Or.inl rfl
        · right
          rfl
      · right
        cases p with
        | nil => simp at hp1
        | cons c cs =>
          have hcv : c = '/' := by simpa using hp1
          rw [hcv]
          rfl
    have ha : ∀ c ∈ n, (fun c => !netlocDelims.contains c) c = true := by
      intro c hc
      show (!netlocDelims.contains c) = true
      rw [hn c hc]
      rfl
    obtain ⟨ht1, ht2⟩ := takeWhile_dropWhile_append _ n (p ++ optQ) ' ' ha hb
    rw [ht1, ht2]
  rw [pyUrlsplit_eq, h0, h1]
  dsimp only
  rw [if_pos h2, h3]
  dsimp only
  rw [htail.1, htail.2]

theorem take2_ne_slashes (p : Str) (q : Str) (hpp : p.take 2 ≠ ['/', '/'])
    (hpq : '?' ∉ p) :
    (p ++ (if q = [] then [] else '?' :: q)).take 2 ≠ ['/', '/'] := by
  cases p with
  | nil =>
    split
    · simp
    · intro h
      simp [List.take] at h
  | cons c1 cs =>
    cases cs with
    | nil =>
      split
      · simp
      · intro h
        rw [show ((c1 :: ([] : Str)) ++ '?' :: q).take 2 = c1 :: '?' :: [] from rfl] at h
        injection h with h1 h2
        injection h2 with h3 h4
        exact absurd h3 (by decide)
    | cons c2 cs2 =>
      intro h
      exact hpp (by simpa using h)

theorem pyUrlsplit_form_rel (s p q : Str)
    (hs : s = [] ∨ (schemeOk s = true ∧ s.map lowerAscii = s ∧ ':' ∉ s))
    (hpf : '#' ∉ p) (hpq : '?' ∉ p) (hqf : '#' ∉ q)
    (hpp : p.take 2 ≠ ['/', '/'])
    (hs0 : s = [] → schemeSplit p = ([], p))
    (hsafeS : ∀ c ∈ s, safeChar c)
    (hsafeP : ∀ c ∈ p, safeChar c) (hsafeQ : ∀ c ∈ q, safeChar c) :
    pyUrlsplit ((if s = [] then [] else s ++ [':']) ++ p ++
      (if q = [] then [] else '?' :: q)) = ⟨s, [], p, q, []⟩ := by
  set optQ : Str := if q = [] then [] else '?' :: q with hoptQ
  set w : Str := (if s = [] then [] else s ++ [':']) ++ p ++ optQ with hw
  have hsafeQ2 : ∀ c ∈ optQ, safeChar c := by
    rw [hoptQ]
    split
    · intro c hc; simp at hc
    · exact safe_cons (by decide) hsafeQ
  have hsafeW : ∀ c ∈ w, safeChar c := by
    rw [hw]
    refine safe_append (safe_append ?_ hsafeP) hsafeQ2
    split
    · intro c hc; simp at hc
    · exact safe_append hsafeS (safe_cons (by decide) (by intro c hc; simp at hc))
  have h0 : pyRemoveUnsafe w = w := pyRemoveUnsafe_eq_self hsafeW
  have hrest : w = (if s = [] then [] else s ++ [':']) ++ (p ++ optQ) := by
    rw [hw]
    simp
  have h1 : schemeSplit w = (s, p ++ optQ) := by
    rcases hs with rfl | ⟨hok, hlow, hcol⟩
    · rw [hrest]
      simp only [if_pos rfl, List.nil_append]
      have hfail := hs0 rfl
      rw [hoptQ]
      by_cases hq : q = []
      · rw [if_pos hq]
        simpa using hfail
      · rw [if_neg hq]
        exact schemeSplit_fail_append p q hfail
    · have hsne : s ≠ [] := by
        intro hn0
        rw [hn0] at hok
        simp [schemeOk] at hok
      rw [hrest, if_neg hsne]
      have : s ++ [':'] ++ (p ++ optQ) = s ++ ':' :: (p ++ optQ) := by simp
      rw [this]
      exact schemeSplit_extract s _ hok hlow hcol
  have htail := splitCore_tail p q hpf hpq hqf
  have h2 : (p ++ optQ).take 2 ≠ ['/', '/'] := by
    rw [hoptQ]
    exact take2_ne_slashes p q hpp hpq
  rw [pyUrlsplit_eq, h0, h1]
  dsimp only
  rw [if_neg h2]
  dsimp only
  rw [htail.1, htail.2]

end PdfScrape

namespace PdfScrape

theorem pyUrlunsplit_roundtrip (s n p q : Str)
    (hn : ∀ c ∈ n, netlocDelims.contains c = false)
    (hpf : '#' ∉ p) (hpq : '?' ∉ p) (hqf : '#' ∉ q)
    (hs : s = [] ∨ (schemeOk s = true ∧ s.map lowerAscii = s ∧ ':' ∉ s))
    (hnp5 : n ≠ [] → p = [] ∨ p.take 1 = ['/'])
    (hs0 : s = [] → schemeSplit p = ([], p))
    (hsafeS : ∀ c ∈ s, safeChar c) (hsafeN : ∀ c ∈ n, safeChar c)
    (hsafeP : ∀ c ∈ p, safeChar c) (hsafeQ : ∀ c ∈ q, safeChar c)
    (hpp : p.take 2 ≠ ['/', '/'])
    (hrel : s ≠ [] → s ∈ usesNetloc → n = [] → (p = [] ∨ p.take 1 = ['/'])) :
    pyUrlsplit (pyUrlunsplit ⟨s, n, p, q, []⟩) = ⟨s, n, p, q, []⟩ := by
  by_cases hcond : n ≠ [] ∨ (s ≠ [] ∧ s ∈ usesNetloc ∧ p.take 2 ≠ ['/', '/'])
  · have hpshape : p = [] ∨ p.take 1 = ['/'] := by
      rcases hcond with hc | ⟨hc1, hc2, -⟩
      · exact hnp5 hc
      · by_cases hn0 : n = []
        · exact hrel hc1 hc2 hn0
        · exact hnp5 hn0
    have hu : (if p ≠ [] ∧ p.take 1 ≠ ['/'] then '/' :: p else p) = p := by
      rcases hpshape with rfl | hp1
      · rw [if_neg]
        rintro ⟨hne, -⟩
        exact hne rfl
      · rw [if_neg]
        rintro ⟨-, hne⟩
        exact hne hp1
    have hw : pyUrlunsplit ⟨s, n, p, q, []⟩ =
        (if s = [] then [] else s ++ [':']) ++ ('/' :: '/' :: (n ++ p)) ++
          (if q = [] then [] else '?' :: q) := by
      unfold pyUrlunsplit
      dsimp only
      rw [if_pos hcond, hu]
      by_cases hsne : s = [] <;> by_cases hqe : q = [] <;>
        simp [hsne, hqe, List.append_assoc]
    rw [hw]
    exact pyUrlsplit_form_auth s n p q hs hn hpf hpq hqf hpshape
      hsafeS hsafeN hsafeP hsafeQ
  · have hn0 : n = [] := by
      by_contra hne
      exact hcond (Or.inl hne)
    have hw : pyUrlunsplit ⟨s, n, p, q, []⟩ =
        (if s = [] then [] else s ++ [':']) ++ p ++ (if q = [] then [] else '?' :: q) := by
      unfold pyUrlunsplit
      dsimp only
      rw [if_neg hcond]
      by_cases hsne : s = [] <;> by_cases hqe : q = [] <;>
        simp [hsne, hqe, List.append_assoc]
    rw [hw, hn0]
    exact pyUrlsplit_form_rel s p q hs hpf hpq hqf hpp hs0 hsafeS hsafeP hsafeQ

end PdfScrape

namespace PdfScrape

theorem pyUrlsplit_inv (u : Str) (hu : pyRemoveUnsafe u = u) :
    (∀ c ∈ (pyUrlsplit u).netloc, netlocDelims.contains c = false) ∧
    ('#' ∉ (pyUrlsplit u).path ∧ '?' ∉ (pyUrlsplit u).path) ∧
    '#' ∉ (pyUrlsplit u).query ∧
    ((pyUrlsplit u).scheme = [] ∨
      (schemeOk (pyUrlsplit u).scheme = true ∧
       (pyUrlsplit u).scheme.map lowerAscii = (pyUrlsplit u).scheme ∧
       ':' ∉ (pyUrlsplit u).scheme)) ∧
    ((pyUrlsplit u).netloc ≠ [] →
      (pyUrlsplit u).path = [] ∨ (pyUrlsplit u).path.take 1 = ['/']) ∧
    ((pyUrlsplit u).scheme = [] →
      schemeSplit (pyUrlsplit u).path = ([], (pyUrlsplit u).path)) ∧
    (∀ c ∈ (pyUrlsplit u).scheme, safeChar c) ∧
    (∀ c ∈ (pyUrlsplit u).netloc, safeChar c) ∧
    (∀ c ∈ (pyUrlsplit u).path, safeChar c) ∧
    (∀ c ∈ (pyUrlsplit u).query, safeChar c) := by
  have hvsafe : ∀ c ∈ u, safeChar c := safeChar_of_removeFixed hu
  have H := splitStages_inv u (schemeSplit u).1 (schemeSplit u).2
      (if (schemeSplit u).2.take 2 = ['/', '/'] then
        splitNetloc ((schemeSplit u).2.drop 2) else ([], (schemeSplit u).2)).1
      (if (schemeSplit u).2.take 2 = ['/', '/'] then
        splitNetloc ((schemeSplit u).2.drop 2) else ([], (schemeSplit u).2)).2
      (splitOnOpt '#'
        (if (schemeSplit u).2.take 2 = ['/', '/'] then
          splitNetloc ((schemeSplit u).2.drop 2) else ([], (schemeSplit u).2)).2).1
      (splitOnOpt '#'
        (if (schemeSplit u).2.take 2 = ['/', '/'] then
          splitNetloc ((schemeSplit u).2.drop 2) else ([], (schemeSplit u).2)).2).2
      (splitOnOpt '?'
        (splitOnOpt '#'
          (if (schemeSplit u).2.take 2 = ['/', '/'] then
            splitNetloc ((schemeSplit u).2.drop 2) else ([], (schemeSplit u).2)).2).1).1
      (splitOnOpt '?'
        (splitOnOpt '#'
          (if (schemeSplit u).2.take 2 = ['/', '/'] then
            splitNetloc ((schemeSplit u).2.drop 2) else ([], (schemeSplit u).2)).2).1).2
      hvsafe rfl rfl rfl rfl
  rw [pyUrlsplit_eq, hu]
  exact H

theorem normalize_eq_geturl (v : Str) :
    normalize v = pyGeturl ⟨(pyUrlparse v).scheme, (pyUrlparse v).netloc,
      (pyUrlparse v).path, (pyUrlparse v).params, (pyUrlparse v).query, []⟩ := rfl

/-- C8 counterexample: `normalize` is not idempotent, and it does not leave the
path component unchanged: for `u = "/////z"`, `urlsplit` takes `"//"` as the
start of an (empty) netloc and `"///z"` as the path, but `urlunsplit` emits no
`"//"` because netloc and scheme are both empty, so `normalize u = "///z"` and
normalizing again collapses the path further to `"/z"`. -/
theorem normalize_not_idempotent :
    normalize (normalize (strL "/////z")) ≠ normalize (strL "/////z") ∧
    (pyUrlparse (normalize (strL "/////z"))).path ≠ (pyUrlparse (strL "/////z")).path := by
  decide

/-- C8 (amended). On URLs that survive the round trip — no tab/CR/LF characters,
inside `urlsplit`'s non-raising domain, no `';'` in the path (so `urlparse`
introduces no params component), path not starting with `"//"`, and a path that
is empty or `/`-rooted whenever a netloc-using scheme appears without a netloc —
`normalize` is idempotent, produces a URL whose fragment component is empty, and
preserves the scheme, netloc, path, params and query components of `urlparse`. -/
theorem normalize_idem_strips_fragment (u : Str)
    (hu : pyRemoveUnsafe u = u)
    (_hok : pyUrlsplitOk u = true)
    (hsemi : ';' ∉ (pyUrlsplit u).path)
    (hpp : (pyUrlsplit u).path.take 2 ≠ ['/', '/'])
    (hrel : (pyUrlsplit u).scheme ≠ [] → (pyUrlsplit u).scheme ∈ usesNetloc →
        (pyUrlsplit u).netloc = [] →
        ((pyUrlsplit u).path = [] ∨ (pyUrlsplit u).path.take 1 = ['/'])) :
    normalize (normalize u) = normalize u ∧
    (pyUrlparse (normalize u)).fragment = [] ∧
    (pyUrlparse (normalize u)).scheme = (pyUrlparse u).scheme ∧
    (pyUrlparse (normalize u)).netloc = (pyUrlparse u).netloc ∧
    (pyUrlparse (normalize u)).path = (pyUrlparse u).path ∧
    (pyUrlparse (normalize u)).params = (pyUrlparse u).params ∧
    (pyUrlparse (normalize u)).query = (pyUrlparse u).query := by
  obtain ⟨I1, I2, I3, I4, I5, I6, I7, I8, I9, I10⟩ := pyUrlsplit_inv u hu
  have hparse_u : pyUrlparse u = ⟨(pyUrlsplit u).scheme, (pyUrlsplit u).netloc,
      (pyUrlsplit u).path, [], (pyUrlsplit u).query, (pyUrlsplit u).fragment⟩ := by
    simp only [pyUrlparse]
    rw [if_neg]
    rintro ⟨-, hmem⟩
    exact hsemi hmem
  have hnorm : normalize u = pyUrlunsplit ⟨(pyUrlsplit u).scheme,
      (pyUrlsplit u).netloc, (pyUrlsplit u).path, (pyUrlsplit u).query, []⟩ := by
    rw [normalize_eq_geturl, hparse_u]
    simp [pyGeturl]
  have hrt : pyUrlsplit (normalize u) = ⟨(pyUrlsplit u).scheme,
      (pyUrlsplit u).netloc, (pyUrlsplit u).path, (pyUrlsplit u).query, []⟩ := by
    rw [hnorm]
    exact pyUrlunsplit_roundtrip _ _ _ _ I1 I2.1 I2.2 I3 I4 I5 I6 I7 I8 I9 I10 hpp hrel
  have hparse_n : pyUrlparse (normalize u) = ⟨(pyUrlsplit u).scheme,
      (pyUrlsplit u).netloc, (pyUrlsplit u).path, [], (pyUrlsplit u).query, []⟩ := by
    simp only [pyUrlparse]
    rw [hrt]
    rw [if_neg]
    rintro ⟨-, hmem⟩
    exact hsemi hmem
  have hidem : normalize (normalize u) = normalize u := by
    rw [normalize_eq_geturl (normalize u), hparse_n, hnorm]
    simp [pyGeturl]
  refine ⟨hidem, ?_, ?_, ?_, ?_, ?_, ?_⟩ <;> simp [hparse_n, hparse_u]

end PdfScrape

namespace PdfScrape

/-- Witness for C8 at `https://site.test/a/b?x=1#sec`: the hypotheses hold and
normalization strips the `#sec` fragment, idempotently, preserving the other
components. -/
theorem normalize_idem_strips_fragment_witness :
    normalize (normalize (strL "https://site.test/a/b?x=1#sec")) =
      normalize (strL "https://site.test/a/b?x=1#sec") ∧
    (pyUrlparse (normalize (strL "https://site.test/a/b?x=1#sec"))).fragment = [] ∧
    (pyUrlparse (normalize (strL "https://site.test/a/b?x=1#sec"))).scheme =
      (pyUrlparse (strL "https://site.test/a/b?x=1#sec")).scheme ∧
    (pyUrlparse (normalize (strL "https://site.test/a/b?x=1#sec"))).netloc =
      (pyUrlparse (strL "https://site.test/a/b?x=1#sec")).netloc ∧
    (pyUrlparse (normalize (strL "https://site.test/a/b?x=1#sec"))).path =
      (pyUrlparse (strL "https://site.test/a/b?x=1#sec")).path ∧
    (pyUrlparse (normalize (strL "https://site.test/a/b?x=1#sec"))).params =
      (pyUrlparse (strL "https://site.test/a/b?x=1#sec")).params ∧
    (pyUrlparse (normalize (strL "https://site.test/a/b?x=1#sec"))).query =
      (pyUrlparse (strL "https://site.test/a/b?x=1#sec")).query :=
  normalize_idem_strips_fragment (strL "https://site.test/a/b?x=1#sec")
    (by decide) (by decide) (by decide) (by decide) (by decide)

end PdfScrape
